import Mathlib

set_option maxRecDepth 8000

/- Verification development for us_presidents.py.

   The source file is embedded shallowly: every text helper is a pure
   function over explicit character lists, dynamically typed pandas cells
   are a small inductive type of Python values, and the fallible parts
   (functions that can raise) return Except.  The CSV writer and reader
   used by save_csv and load_csv are modelled at the level of records of
   string fields, including the quoting rules of to_csv and the NA-token
   and integer-column inference rules of read_csv that the round trip
   depends on. -/

-- ## Decimal rendering (str() on integers)

/-- Decimal digit character of a value below ten. -/
def digitChar (n : Nat) : Char := Char.ofNat (48 + n)

/-- Decimal digits of a natural number, most significant first, built by
prepending to an accumulator.  The fuel argument only bounds the
recursion depth; any fuel at least the digit count gives the digits. -/
def natToCharsAux : Nat → Nat → List Char → List Char
  | 0, _, acc => acc
  | f + 1, n, acc =>
    if n < 10 then digitChar n :: acc
    else natToCharsAux f (n / 10) (digitChar (n % 10) :: acc)

/-- str() of a natural number. -/
def natToChars (n : Nat) : List Char := natToCharsAux (n + 1) n []

/-- str() of a Python int. -/
def intToChars (n : Int) : List Char :=
  if n < 0 then '-' :: natToChars n.natAbs else natToChars n.toNat

def intToString (n : Int) : String := ⟨intToChars n⟩

/-- Value of a digit list, most significant first. -/
def digitsToNat (l : List Char) : Nat :=
  l.foldl (fun acc c => acc * 10 + (c.toNat - 48)) 0

-- ## Python value model

/-- Scalar cell values occurring in the pipeline: pandas pd.NA, float NaN,
Python None, strings and integers. -/
inductive PyScalar where
  | na
  | nan
  | pynone
  | str (s : String)
  | int (n : Int)
deriving DecidableEq, Repr

/-- A dynamically typed cell: a scalar or a flat list of scalars (the
cleaned list columns hold flat lists of strings or of integers and NAs). -/
inductive PyVal where
  | sc (v : PyScalar)
  | list (xs : List PyScalar)
deriving DecidableEq, Repr

/-- isinstance(x, str). -/
def PyVal.isStr : PyVal → Bool
  | .sc (.str _) => true
  | _ => false

/-- pd.isna on scalar values. -/
def pdIsna : PyScalar → Bool
  | .na => true
  | .nan => true
  | .pynone => true
  | _ => false

/-- str() on the scalar values that occur in cells. -/
def pyScalarStr : PyScalar → String
  | .na => "<NA>"
  | .nan => "nan"
  | .pynone => "None"
  | .str s => s
  | .int n => intToString n

/-- Sequencing of a fallible cell operation over a column or row list
(pandas apply: the first raised exception aborts the whole call). -/
def exMapM (f : α → Except String β) : List α → Except String (List β)
  | [] => .ok []
  | a :: as => do
    let b ← f a
    let bs ← exMapM f as
    return b :: bs

-- ## Character level utilities shared by the string helpers

/-- Python whitespace: the characters stripped by str.strip, split on by
str.split, and matched by the regex class backslash-s on str patterns
(ASCII whitespace, the C1 separators, NEL, NBSP and the Unicode spaces). -/
def isPySpace (c : Char) : Bool :=
  c.toNat = 32 || c.toNat = 9 || c.toNat = 10 || c.toNat = 13 || c.toNat = 11 ||
  c.toNat = 12 || (28 <= c.toNat && c.toNat <= 31) || c.toNat = 133 ||
  c.toNat = 160 || c.toNat = 5760 || (8192 <= c.toNat && c.toNat <= 8202) ||
  c.toNat = 8232 || c.toNat = 8233 || c.toNat = 8239 || c.toNat = 8287 ||
  c.toNat = 12288

/-- ASCII digit, by code point (the regex class and int() digits as
modelled). -/
def pyIsDigit (c : Char) : Bool := 48 <= c.toNat && c.toNat <= 57

/-- ASCII letter, by code point. -/
def pyIsAlpha (c : Char) : Bool :=
  (65 <= c.toNat && c.toNat <= 90) || (97 <= c.toNat && c.toNat <= 122)

/-- Drop trailing Python whitespace. -/
def dropTrailWs (l : List Char) : List Char :=
  (l.reverse.dropWhile isPySpace).reverse

/-- str.strip() on a character list. -/
def stripL (l : List Char) : List Char :=
  dropTrailWs (l.dropWhile isPySpace)

/-- str.strip(). -/
def pyStrip (s : String) : String := ⟨stripL s.data⟩

/-- str.split() with no argument: maximal runs of non-whitespace, empties
discarded.  The accumulator holds the current word reversed. -/
def splitWsAux : List Char → List Char → List (List Char)
  | [], [] => []
  | [], acc => [acc.reverse]
  | c :: rest, acc =>
    if isPySpace c then
      if acc.isEmpty then splitWsAux rest [] else acc.reverse :: splitWsAux rest []
    else splitWsAux rest (c :: acc)

/-- str.split() on a character list. -/
def splitWsL (l : List Char) : List (List Char) := splitWsAux l []

/-- Splitting on a single character, Python str.split(sep) style: keeps
empty pieces, never returns the empty list. -/
def splitOnCharL (sep : Char) : List Char → List (List Char)
  | [] => [[]]
  | c :: rest =>
    match splitOnCharL sep rest with
    | [] => [[]]
    | piece :: pieces =>
      if c = sep then [] :: piece :: pieces else (c :: piece) :: pieces

-- ## remove_footnotes

/-- Scan for the first closing bracket reachable without crossing a
newline: the lazy regex piece dot-star-lazy closing-bracket. -/
def scanClose : List Char → Option (List Char)
  | [] => none
  | c :: rest =>
    if c = ']' then some rest
    else if c = '\n' then none
    else scanClose rest

theorem scanClose_length : ∀ l r, scanClose l = some r → r.length < l.length := by
  intro l
  induction l with
  | nil => intro r h; simp [scanClose] at h
  | cons c rest ih =>
    intro r h
    by_cases hc : c = ']'
    · simp [scanClose, hc] at h
      subst h; simp
    · by_cases hn : c = '\n'
      · simp [scanClose, hc, hn] at h
      · simp [scanClose, hc, hn] at h
        exact Nat.lt_succ_of_lt (ih r h)

/-- re.sub of bracketed footnotes with the empty string: at every
position try to match an opening bracket followed lazily by anything up
to a closing bracket; on a match drop it and continue after it.  The
fuel bounds the recursion depth; scanClose shortens the list, so fuel
equal to the length never runs out. -/
def rfCoreF : Nat → List Char → List Char
  | 0, l => l
  | _ + 1, [] => []
  | f + 1, c :: rest =>
    if c = '[' then
      match scanClose rest with
      | some rest2 => rfCoreF f rest2
      | none => c :: rfCoreF f rest
    else c :: rfCoreF f rest

def rfCore (l : List Char) : List Char := rfCoreF l.length l

/-- remove_footnotes on a string: re.sub of bracketed markers, then
strip. -/
def remove_footnotes (s : String) : String := ⟨stripL (rfCore s.data)⟩

-- ## extract_parties

def RECOGNIZED_PARTIES : List String :=
  ["Unaffiliated", "Federalist", "Democratic-Republican", "National Republican",
   "Democratic", "Whig", "National Union", "Republican"]

/-- Match the regex backslash-s-star dash backslash-s-star at the head of
the list: maximal whitespace, a required hyphen, maximal whitespace. -/
def dashMatch (l : List Char) : Option (List Char) :=
  match l.dropWhile isPySpace with
  | c :: rest => if c = '-' then some (rest.dropWhile isPySpace) else none
  | [] => none

theorem dropWhile_length_le (p : Char → Bool) (l : List Char) :
    (l.dropWhile p).length ≤ l.length := by
  induction l with
  | nil => simp
  | cons c rest ih =>
    by_cases h : p c
    · simp [List.dropWhile, h]; omega
    · simp [List.dropWhile, h]

theorem dashMatch_length : ∀ l r, dashMatch l = some r → r.length < l.length := by
  intro l r h
  unfold dashMatch at h
  cases hd : l.dropWhile isPySpace with
  | nil => rw [hd] at h; simp at h
  | cons c rest =>
    rw [hd] at h
    by_cases hc : c = '-'
    · simp [hc] at h
      have h1 : (c :: rest).length ≤ l.length := by
        have := dropWhile_length_le isPySpace l
        rw [hd] at this
        exact this
      have h2 : r.length ≤ rest.length := by
        rw [← h]; exact dropWhile_length_le _ _
      simp at h1
      omega
    · simp [hc] at h

/-- re.sub replacing whitespace-padded hyphens by a bare hyphen, scanning
left to right and resuming after each replacement. -/
def dashNormF : Nat → List Char → List Char
  | 0, l => l
  | _ + 1, [] => []
  | f + 1, c :: rest =>
    match dashMatch (c :: rest) with
    | some rest2 => '-' :: dashNormF f rest2
    | none => c :: dashNormF f rest

def dashNormL (l : List Char) : List Char := dashNormF l.length l

/-- re.sub collapsing every whitespace run to a single space. -/
def wsCollapseF : Nat → List Char → List Char
  | 0, l => l
  | _ + 1, [] => []
  | f + 1, c :: rest =>
    if isPySpace c then ' ' :: wsCollapseF f (rest.dropWhile isPySpace)
    else c :: wsCollapseF f rest

def wsCollapseL (l : List Char) : List Char := wsCollapseF l.length l

/-- str.title(): a cased character starting a run of letters is
uppercased, later letters of the run are lowercased.  ASCII letters are
the cased characters of this dataset. -/
def titleCaseL : List Char → Bool → List Char
  | [], _ => []
  | c :: rest, prevAlpha =>
    if c.isAlpha then
      (if prevAlpha then c.toLower else c.toUpper) :: titleCaseL rest true
    else c :: titleCaseL rest false

/-- The accumulator loop of extract_parties: tokens are appended to the
current fragment (space separated); when the fragment is a recognized
party it is emitted and the fragment resets; a final recognized fragment
is emitted after the loop. -/
def partyScan : List String → String → List String → List String
  | [], current, found =>
    if RECOGNIZED_PARTIES.contains current then found ++ [current] else found
  | p :: parts, current, found =>
    let current2 := if current = "" then p else current ++ " " ++ p
    if RECOGNIZED_PARTIES.contains current2 then partyScan parts "" (found ++ [current2])
    else partyScan parts current2 found

/-- extract_parties on a string: normalize hyphen spacing, collapse
whitespace, strip, title-case, then scan tokens against the recognized
vocabulary. -/
def extract_parties (s : String) : List String :=
  let t := titleCaseL (stripL (wsCollapseL (dashNormL s.data))) false
  partyScan ((splitWsL t).map (fun w => (⟨w⟩ : String))) "" []

-- ## extract_vice_presidents

/-- Case insensitive literal match (the regex letters are ASCII): returns
the remainder after the pattern. -/
def matchCI : List Char → List Char → Option (List Char)
  | [], l => some l
  | _ :: _, [] => none
  | p :: ps, c :: cs => if c.toLower = p.toLower then matchCI ps cs else none

/-- Four consecutive ASCII digits at the head. -/
def fourDigits : List Char → Bool
  | a :: b :: c :: d :: _ => pyIsDigit a && pyIsDigit b && pyIsDigit c && pyIsDigit d
  | _ => false

/-- The lazy tail of the vacancy alternative: consume the minimal run of
non-newline characters until four digits follow; returns the matched
characters (with the digits) and the remainder. -/
def lazyToYear (seen : List Char) (l : List Char) : Option (List Char × List Char) :=
  if fourDigits l then some (seen ++ l.take 4, l.drop 4)
  else
    match l with
    | [] => none
    | c :: rest => if c = '\n' then none else lazyToYear (seen ++ [c]) rest

def vacantThroughout : List Char := "Vacant throughout presidency".data
def vacantWord : List Char := "Vacant".data

/-- Try the vacancy pattern at the head of the list, first alternative
first; returns the matched text (original case) and the remainder. -/
def vacMatch (l : List Char) : Option (List Char × List Char) :=
  match matchCI vacantThroughout l with
  | some rest => some (l.take vacantThroughout.length, rest)
  | none =>
    match matchCI vacantWord l with
    | some rest =>
      match lazyToYear [] rest with
      | some (mid, rest2) => some (l.take vacantWord.length ++ mid, rest2)
      | none => none
    | none => none

theorem matchCI_length : ∀ p l r, matchCI p l = some r → r.length + p.length = l.length := by
  intro p
  induction p with
  | nil => intro l r h; simp [matchCI] at h; simp [h]
  | cons c cs ih =>
    intro l r h
    cases l with
    | nil => simp [matchCI] at h
    | cons x xs =>
      simp only [matchCI] at h
      by_cases hx : x.toLower = c.toLower
      · simp [hx] at h
        have := ih xs r h
        simp [List.length]
        omega
      · simp [hx] at h

theorem lazyToYear_length : ∀ l seen m r, lazyToYear seen l = some (m, r) →
    r.length ≤ l.length := by
  intro l
  induction l with
  | nil =>
    intro seen m r h
    unfold lazyToYear at h
    simp [fourDigits] at h
  | cons c rest ih =>
    intro seen m r h
    unfold lazyToYear at h
    by_cases h4 : fourDigits (c :: rest)
    · simp [h4] at h
      rw [← h.2]
      simp [List.length_drop]
      omega
    · simp [h4] at h
      by_cases hn : c = '\n'
      · simp [hn] at h
      · simp [hn] at h
        have := ih _ _ _ h
        simp
        omega

theorem vacMatch_length : ∀ l m r, vacMatch l = some (m, r) → r.length < l.length := by
  intro l m r h
  unfold vacMatch at h
  cases h1 : matchCI vacantThroughout l with
  | some rest =>
    rw [h1] at h
    simp at h
    have := matchCI_length _ _ _ h1
    have hr : r = rest := h.2.symm
    rw [hr]
    have : rest.length + 28 = l.length := by simpa [vacantThroughout] using this
    omega
  | none =>
    rw [h1] at h
    simp only [] at h
    cases h2 : matchCI vacantWord l with
    | none => rw [h2] at h; simp at h
    | some rest =>
      rw [h2] at h
      simp only [] at h
      cases h3 : lazyToYear [] rest with
      | none => rw [h3] at h; simp at h
      | some mr =>
        rw [h3] at h
        cases mr with
        | mk mid rest2 =>
          simp at h
          have hword := matchCI_length _ _ _ h2
          have hlazy := lazyToYear_length _ _ _ _ h3
          have hr : r = rest2 := h.2.symm
          have : rest.length + 6 = l.length := by simpa [vacantWord] using hword
          rw [hr]
          omega

/-- re.split keeping the captured separators: the interleaved list of
plain segments and vacancy matches.  The accumulator holds the current
plain segment reversed. -/
def vacSplitF : Nat → List Char → List Char → List (List Char)
  | 0, pending, l => [pending ++ l]
  | _ + 1, pending, [] => [pending]
  | f + 1, pending, c :: rest =>
    match vacMatch (c :: rest) with
    | some (m, rest2) => pending :: m :: vacSplitF f [] rest2
    | none => vacSplitF f (pending ++ [c]) rest

def vacSplitAux (pending : List Char) (l : List Char) : List (List Char) :=
  vacSplitF l.length pending l

/-- The normalization step of extract_vice_presidents: replace NBSP by a
plain space, collapse whitespace, strip. -/
def vpNormalize (s : String) : List Char :=
  stripL (wsCollapseL (s.data.map (fun c => if c = '\xa0' then ' ' else c)))

/-- extract_vice_presidents on a string: normalize, split at the vacancy
pattern keeping the matches, then keep the non-empty tokens, stripped
(the emptiness filter runs before the strip). -/
def extract_vice_presidents (s : String) : List String :=
  ((vacSplitAux [] (vpNormalize s)).filter (fun seg => ¬seg.isEmpty)).map
    (fun seg => (⟨stripL seg⟩ : String))

-- ## extract_election_dates

/-- int() on a string: optional surrounding whitespace, optional sign,
then digits with single underscores allowed between digits.  The
accumulator version consumes digit or underscore-digit steps. -/
def digitsUSAux : List Char → Nat → Option Nat
  | [], acc => some acc
  | c :: rest, acc =>
    if pyIsDigit c then digitsUSAux rest (acc * 10 + (c.toNat - 48))
    else if c = '_' then
      match rest with
      | d :: rest2 =>
        if pyIsDigit d then digitsUSAux rest2 (acc * 10 + (d.toNat - 48)) else none
      | [] => none
    else none

/-- Digit run with underscore separators, first character a digit. -/
def digitsUS : List Char → Option Nat
  | [] => none
  | c :: rest => if pyIsDigit c then digitsUSAux rest (c.toNat - 48) else none

/-- Python int(str): raises on failure, modelled as none. -/
def pyIntL (l : List Char) : Option Int :=
  match stripL l with
  | [] => none
  | c :: ds =>
    if c = '+' then (digitsUS ds).map (fun n : Nat => (n : Int))
    else if c = '-' then (digitsUS ds).map (fun n : Nat => -(n : Int))
    else (digitsUS (c :: ds)).map (fun n : Nat => (n : Int))

def pyInt (s : String) : Option Int := pyIntL s.data

/-- s.split(en-dash)[0]: the prefix before the first en-dash, applied
only when the token contains one. -/
def firstHalfEnDash (w : List Char) : List Char :=
  if w.contains '–' then w.takeWhile (fun c => c ≠ '–') else w

/-- extract_election_dates on a string: split on whitespace, collapse
ranges to their first half, int-parse each token with failures becoming
pd.NA (none). -/
def extract_election_dates (s : String) : List (Option Int) :=
  (splitWsL s.data).map (fun w => pyIntL (firstHalfEnDash w))

-- ## split_name_birth_death

/-- Exactly four digits at the head: the matched text and remainder. -/
def take4Digits : List Char → Option (String × List Char)
  | a :: b :: c :: d :: rest =>
    if pyIsDigit a && pyIsDigit b && pyIsDigit c && pyIsDigit d then
      some (⟨[a, b, c, d]⟩, rest) else none
  | _ => none

/-- The first alternative of the parenthesised group: YYYY en-dash YYYY
followed by the closing parenthesis. -/
def parenAlt1 (rest : List Char) : Option (String × Option String) :=
  match take4Digits rest with
  | some (b, rest2) =>
    match rest2 with
    | d1 :: rest3 =>
      if d1 = '–' then
        match take4Digits rest3 with
        | some (d, rest4) =>
          match rest4 with
          | c2 :: _ => if c2 = ')' then some (b, some d) else none
          | [] => none
        | none => none
      else none
    | [] => none
  | none => none

/-- The second alternative: the literal b-dot-space, YYYY and the closing
parenthesis. -/
def parenAlt2 (rest : List Char) : Option (String × Option String) :=
  match rest with
  | 'b' :: '.' :: ' ' :: rest2 =>
    match take4Digits rest2 with
    | some (b, rest3) =>
      match rest3 with
      | c2 :: _ => if c2 = ')' then some (b, none) else none
      | [] => none
    | none => none
  | _ => none

/-- The parenthesised tail of the name regex: maximal whitespace, an
opening parenthesis, then the first alternative, falling back to the
second when it fails anywhere. -/
def parenMatch (l : List Char) : Option (String × Option String) :=
  match l.dropWhile isPySpace with
  | c :: rest =>
    if c = '(' then
      match parenAlt1 rest with
      | some r => some r
      | none => parenAlt2 rest
    else none
  | [] => none

/-- The lazy leading group of the name regex: the shortest newline-free
prefix after which the parenthesised tail matches. -/
def nbdAux : List Char → List Char → Option (List Char × String × Option String)
  | nameRev, [] =>
    match parenMatch [] with
    | some (b, d) => some (nameRev.reverse, b, d)
    | none => none
  | nameRev, c :: rest =>
    match parenMatch (c :: rest) with
    | some (b, d) => some (nameRev.reverse, b, d)
    | none => if c = '\n' then none else nbdAux (c :: nameRev) rest

/-- split_name_birth_death on a string: returns (name, birth, death) with
the year capture groups as four-digit strings, or three nulls when the
pattern does not match. -/
def split_name_birth_death (s : String) :
    Option String × Option String × Option String :=
  match nbdAux [] s.data with
  | some (n, b, d) => (some ⟨n⟩, some b, d)
  | none => (none, none, none)

-- ## split_term

/-- Match the regex backslash-s-star en-dash backslash-s-star at the head
of the list. -/
def edMatch (l : List Char) : Option (List Char) :=
  match l.dropWhile isPySpace with
  | c :: rest => if c = '–' then some (rest.dropWhile isPySpace) else none
  | [] => none

theorem edMatch_length : ∀ l r, edMatch l = some r → r.length < l.length := by
  intro l r h
  unfold edMatch at h
  cases hd : l.dropWhile isPySpace with
  | nil => rw [hd] at h; simp at h
  | cons c rest =>
    rw [hd] at h
    by_cases hc : c = '–'
    · simp [hc] at h
      have h1 : (c :: rest).length ≤ l.length := by
        have := dropWhile_length_le isPySpace l
        rw [hd] at this
        exact this
      have h2 : r.length ≤ rest.length := by
        rw [← h]; exact dropWhile_length_le _ _
      simp at h1
      omega
    · simp [hc] at h

/-- re.split on whitespace-padded en-dashes, separators dropped. -/
def edSplitF : Nat → List Char → List Char → List (List Char)
  | 0, pending, l => [pending ++ l]
  | _ + 1, pending, [] => [pending]
  | f + 1, pending, c :: rest =>
    match edMatch (c :: rest) with
    | some rest2 => pending :: edSplitF f [] rest2
    | none => edSplitF f (pending ++ [c]) rest

def edSplitAux (pending : List Char) (l : List Char) : List (List Char) :=
  edSplitF l.length pending l

/-- split_term on a string: split on padded en-dashes; exactly two parts
give (start, end) stripped, with the Incumbent sentinel becoming null;
otherwise both outputs are null. -/
def split_term (s : String) : Option String × Option String :=
  match edSplitAux [] s.data with
  | [a, b] =>
    let start : String := ⟨stripL a⟩
    let e : String := ⟨stripL b⟩
    (some start, if e = "Incumbent" then none else some e)
  | _ => (none, none)

-- ## Dynamically typed wrappers (the functions as applied to cells)

/-- remove_footnotes as applied by pandas apply: non-strings pass through
unchanged (the isinstance guard). -/
def remove_footnotesP : PyVal → PyVal
  | .sc (.str s) => .sc (.str (remove_footnotes s))
  | v => v

/-- extract_parties on a cell: non-strings pass through unchanged. -/
def extract_partiesP : PyVal → PyVal
  | .sc (.str s) => .list ((extract_parties s).map PyScalar.str)
  | v => v

/-- extract_vice_presidents on a cell: non-strings pass through. -/
def extract_vice_presidentsP : PyVal → PyVal
  | .sc (.str s) => .list ((extract_vice_presidents s).map PyScalar.str)
  | v => v

/-- extract_election_dates on a cell: non-strings pass through; parse
failures are pd.NA entries. -/
def extract_election_datesP : PyVal → PyVal
  | .sc (.str s) =>
    .list ((extract_election_dates s).map (fun o =>
      match o with
      | some n => PyScalar.int n
      | none => PyScalar.na))
  | v => v

/-- split_name_birth_death on a cell: re.match requires a string, so a
non-string cell raises TypeError. -/
def split_name_birth_deathP : PyVal →
    Except String (Option String × Option String × Option String)
  | .sc (.str s) => .ok (split_name_birth_death s)
  | _ => .error "TypeError: expected string or bytes-like object"

/-- split_term on a cell: re.split requires a string, so a non-string
cell raises TypeError. -/
def split_termP : PyVal → Except String (Option String × Option String)
  | .sc (.str s) => .ok (split_term s)
  | _ => .error "TypeError: expected string or bytes-like object"

-- ## Calendar dates (pandas Timestamps at day granularity)

structure PDate where
  year : Nat
  month : Nat
  day : Nat
deriving DecidableEq, Repr

def monthNames : List String :=
  ["January", "February", "March", "April", "May", "June", "July",
   "August", "September", "October", "November", "December"]

/-- Timestamp.month_name(). -/
def pdMonthName (m : Nat) : String := (monthNames.get? (m - 1)).getD ""

def isLeap (y : Nat) : Bool := y % 4 = 0 && (y % 100 ≠ 0 || y % 400 = 0)

def daysInMonth (y m : Nat) : Nat :=
  if m = 2 then (if isLeap y then 29 else 28)
  else if m = 4 || m = 6 || m = 9 || m = 11 then 30 else 31

/-- The pandas Timestamp range at midnight granularity: 1677-09-22
through 2262-04-11; outside it pd.to_datetime overflows (and coerces to
NaT under errors equal coerce). -/
def dateInBounds (y m d : Nat) : Bool :=
  (1677 < y || (y = 1677 && (9 < m || (m = 9 && 22 ≤ d)))) &&
  (y < 2262 || (y = 2262 && (m < 4 || (m = 4 && d ≤ 11))))

def dateValid (y m d : Nat) : Bool :=
  1 ≤ m && m ≤ 12 && 1 ≤ d && d ≤ daysInMonth y m && dateInBounds y m d

/-- The f-string of save_csv: month name, space, unpadded day, comma,
space, year. -/
def formatDateL (d : PDate) : List Char :=
  (pdMonthName d.month).data ++ ' ' :: (natToChars d.day ++ ',' :: ' ' :: natToChars d.year)

def formatDate (d : PDate) : String := ⟨formatDateL d⟩

def lowerL (l : List Char) : List Char := l.map Char.toLower

/-- Case insensitive month-name lookup, 1-based. -/
def monthLookup (w : List Char) : List String → Nat → Option Nat
  | [], _ => none
  | n :: ns, i => if lowerL w = lowerL n.data then some i else monthLookup w ns (i + 1)

def monthFromName (w : List Char) : Option Nat := monthLookup w monthNames 1

/-- pd.to_datetime on a single string, errors equal coerce, for the
month-name format written by save_csv: month name (case insensitive),
whitespace, day digits, optional whitespace, comma, optional whitespace,
year digits; the day must exist in the month and the result must lie in
the Timestamp range.  Strings in other shapes give NaT (none).  The
real pd.to_datetime also parses other formats (ISO dates, bare years);
loadFromRecords therefore refuses date columns holding text outside the
dateShape family below, so loads never rely on this none region. -/
def parseDateL (l : List Char) : Option PDate :=
  let t := stripL l
  let mw := t.takeWhile pyIsAlpha
  let r1 := t.dropWhile pyIsAlpha
  match monthFromName mw with
  | none => none
  | some m =>
    let r2 := r1.dropWhile isPySpace
    if r1.length = r2.length then none
    else
      let dw := r2.takeWhile pyIsDigit
      let r3 := r2.dropWhile pyIsDigit
      if dw.isEmpty then none
      else
        match r3.dropWhile isPySpace with
        | c :: r4 =>
          if c = ',' then
            let r5 := r4.dropWhile isPySpace
            let yw := r5.takeWhile pyIsDigit
            let r6 := r5.dropWhile pyIsDigit
            if yw.isEmpty then none
            else if ¬r6.isEmpty then none
            else
              let day := digitsToNat dw
              let year := digitsToNat yw
              if dateValid year m day then some ⟨year, m, day⟩ else none
          else none
        | [] => none

def parseDate (s : String) : Option PDate := parseDateL s.data

/-- pd.to_datetime with errors equal coerce on a cell that is a string or
missing: parse failures and missing values become NaT (none). -/
def to_datetime_coerce (o : Option String) : Option PDate := o.bind parseDate

/-- The family of date texts on which the model of pd.to_datetime is
exact: a full month name (case insensitive), whitespace, a one or two
digit day, optional whitespace, a comma, whitespace, a four digit year.
On these the real parser agrees with parseDateL: a valid in-range date
parses, anything else (bad day, out-of-range year) coerces to NaT.
Shorter month words (abbreviations), two-digit years and other formats
behave differently in pandas and are refused by the load guard. -/
def dateShape (s : String) : Bool :=
  let t := stripL s.data
  let mw := t.takeWhile pyIsAlpha
  let r1 := t.dropWhile pyIsAlpha
  match monthFromName mw with
  | none => false
  | some _ =>
    let r2 := r1.dropWhile isPySpace
    if r1.length = r2.length then false
    else
      let dw := r2.takeWhile pyIsDigit
      let r3 := r2.dropWhile pyIsDigit
      (decide (1 ≤ dw.length) && decide (dw.length ≤ 2)) &&
      (match r3.dropWhile isPySpace with
       | c :: r4 =>
         (c = ',') &&
         (let r5 := r4.dropWhile isPySpace
          let yw := r5.takeWhile pyIsDigit
          let r6 := r5.dropWhile pyIsDigit
          decide (yw.length = 4) && r6.isEmpty)
       | [] => false)

-- ## List codec

/-- Rendering of one list element inside the pipe string: missing values
become the literal NA, everything else its str() form. -/
def pipeElem (x : PyScalar) : String := if pdIsna x then "NA" else pyScalarStr x

/-- The pipe join of a non-empty list, at character level. -/
def joinPipeL : List PyScalar → List Char
  | [] => []
  | [x] => (pipeElem x).data
  | x :: y :: xs => (pipeElem x).data ++ ' ' :: '|' :: ' ' :: joinPipeL (y :: xs)

/-- list_to_pipe_string: a falsy argument returns pd.NA (bool() of pd.NA
itself raises TypeError), a list is joined with the pipe delimiter
rendering missing elements as NA, and any other value is returned
unchanged. -/
def list_to_pipe_string (v : PyVal) : Except String PyScalar :=
  match v with
  | .sc .na => .error "TypeError: boolean value of NA is ambiguous"
  | .sc .pynone => .ok .na
  | .sc .nan => .ok .nan
  | .sc (.str s) => if s = "" then .ok .na else .ok (.str s)
  | .sc (.int n) => if n = 0 then .ok .na else .ok (.int n)
  | .list [] => .ok .na
  | .list xs => .ok (.str ⟨joinPipeL xs⟩)

/-- Decode of a pipe string: split on the pipe character, strip each
piece, map the literal NA back to pd.NA. -/
def decodePipe (s : String) : List PyScalar :=
  (splitOnCharL '|' s.data).map (fun piece =>
    let t := stripL piece
    if t = ['N', 'A'] then .na else .str ⟨t⟩)

/-- pipe_string_to_list: a missing value decodes to the single-element
list holding pd.NA, a string is split, anything else passes through
unchanged (pd.isna of a list is an array, whose truth value raises). -/
def pipe_string_to_list (v : PyVal) : Except String PyVal :=
  match v with
  | .sc x =>
    if pdIsna x then .ok (.list [.na])
    else
      match x with
      | .str s => .ok (.list (decodePipe s))
      | _ => .ok (.sc x)
  | .list _ => .error "ValueError: truth value of an array is ambiguous"

-- ## Row cleaner

structure RawRow where
  c0 : PyVal
  c1 : PyVal
  c2 : PyVal
  c3 : PyVal
  c4 : PyVal
  c5 : PyVal
  c6 : PyVal
  c7 : PyVal
deriving DecidableEq, Repr

structure CleanRow where
  name : Option String
  birth : Option Int
  death : Option Int
  term_start : Option PDate
  term_end : Option PDate
  party : PyVal
  election : PyVal
  vice_president : PyVal
deriving DecidableEq, Repr

/-- The cleaned table: rows keyed by the number-column index, in source
order. -/
abbrev CleanDF := List (PyVal × CleanRow)

/-- astype Int64 on one object cell holding a string or pd.NA: digit
strings convert, anything else raises. -/
def astypeInt64Cell (o : Option String) : Except String (Option Int) :=
  match o with
  | none => .ok none
  | some s =>
    match pyInt s with
    | some n => .ok (some n)
    | none => .error "ValueError: cannot convert object to Int64"

/-- One row of clean_presidents_df: columns 1 and 4 of the raw row are
dropped, the remainder renamed, the number column becomes the index, the
four text columns are footnote-stripped, the extractors run, the combined
columns are dropped, and the scalar columns are coerced (name to string,
birth and death to Int64, the term halves to datetime with coercion). -/
def cleanRow (r : RawRow) : Except String (PyVal × CleanRow) := do
  let nbd := remove_footnotesP r.c2
  let vp0 := remove_footnotesP r.c7
  let party0 := remove_footnotesP r.c5
  let term := remove_footnotesP r.c3
  let party := extract_partiesP party0
  let vp := extract_vice_presidentsP vp0
  let elec := extract_election_datesP r.c6
  let (name, birthS, deathS) ← split_name_birth_deathP nbd
  let (tsS, teS) ← split_termP term
  let birth ← astypeInt64Cell birthS
  let death ← astypeInt64Cell deathS
  return (r.c0, ⟨name, birth, death, to_datetime_coerce tsS, to_datetime_coerce teS,
                party, elec, vp⟩)

/-- df.copy(): a fresh deep copy of the frame; in-place operations on the
copy cannot reach the original.  (Object cells share element references,
but every transformation builds new values, none mutates an element.) -/
def dfCopyRaw (raw : List RawRow) : List RawRow := raw

/-- clean_presidents_df: returns the cleaned copy together with the
caller's raw frame as it stands after the call.  The body assigns only
into the copy df (drop, set_index, column assignments are in-place on
df, which is dfCopyRaw of the argument), so the second component is the
argument itself. -/
def clean_presidents_df (raw_df : List RawRow) :
    Except String (CleanDF × List RawRow) := do
  let df := dfCopyRaw raw_df
  let cleaned ← exMapM cleanRow df
  return (cleaned, raw_df)

-- ## CSV text layer (to_csv / read_csv)

/-- QUOTE_MINIMAL: a field is quoted when it holds the delimiter, the
quote character or a line break. -/
def csvNeedsQuote (s : String) : Bool :=
  s.data.any (fun c => c = ',' || c = '"' || c = '\n' || c = '\r')

/-- Quote-escape: double internal quote characters, close with a quote. -/
def escQ : List Char → List Char
  | [] => ['"']
  | c :: rest => if c = '"' then '"' :: '"' :: escQ rest else c :: escQ rest

def csvField (s : String) : List Char :=
  if csvNeedsQuote s then '"' :: escQ s.data else s.data

/-- One CSV line without terminator: fields joined by commas. -/
def joinComma : List String → List Char
  | [] => []
  | [f] => csvField f
  | f :: g :: fs => csvField f ++ ',' :: joinComma (g :: fs)

/-- The whole file: every record followed by a newline. -/
def csvText (recs : List (List String)) : String :=
  ⟨(recs.map (fun r => joinComma r ++ ['\n'])).flatten⟩

/-- Field splitting of one record, tracking the in-quotes state.  Escaped
(doubled) quote characters do not occur in the files considered here. -/
def lineFields (l : List Char) (cur : List Char) (inQ : Bool) : List String :=
  match l with
  | [] => [⟨cur⟩]
  | c :: rest =>
    if inQ then
      if c = '"' then lineFields rest cur false
      else lineFields rest (cur ++ [c]) true
    else
      if c = '"' then lineFields rest cur true
      else if c = ',' then (⟨cur⟩ : String) :: lineFields rest [] false
      else lineFields rest (cur ++ [c]) false

/-- read_csv record layer: the file split at newlines, blank lines
skipped, each line split into fields. -/
def csvParse (file : String) : List (List String) :=
  ((splitOnCharL '\n' file.data).filter (fun l => ¬l.isEmpty)).map
    (fun l => lineFields l [] false)

-- ## save_csv

/-- to_csv rendering of a scalar cell with na_rep NA. -/
def scalarCsvField (x : PyScalar) : String :=
  if pdIsna x then "NA" else pyScalarStr x

def optStrField (o : Option String) : String :=
  match o with
  | none => "NA"
  | some s => s

def optIntField (o : Option Int) : String :=
  match o with
  | none => "NA"
  | some n => intToString n

/-- str() of the index value as to_csv writes it (list-valued indexes,
which cannot occur in cleaned frames, are rendered approximately). -/
def indexField (v : PyVal) : String :=
  match v with
  | .sc x => scalarCsvField x
  | .list xs => ⟨'[' :: (joinPipeL xs) ++ [']']⟩

def csvHeader : List String :=
  ["number", "name", "birth", "death", "term_start", "term_end",
   "party", "election", "vice_president"]

/-- One record of the saved file: the index, the scalar columns with NA
for missing values, the date columns through the month-name f-string, and
the list columns through the pipe codec. -/
def saveRow (idx : PyVal) (r : CleanRow) : Except String (List String) := do
  let p ← list_to_pipe_string r.party
  let e ← list_to_pipe_string r.election
  let v ← list_to_pipe_string r.vice_president
  return [indexField idx, optStrField r.name, optIntField r.birth, optIntField r.death,
          optStrField (r.term_start.map formatDate),
          optStrField (r.term_end.map formatDate),
          scalarCsvField p, scalarCsvField e, scalarCsvField v]

/-- save_csv: df_temp is a copy of the argument, the date columns of the
copy are formatted, the list columns of the copy are encoded, and the
copy is written; the function returns the written text together with the
caller's frame, which no statement assigns into. -/
def save_csv (df : CleanDF) : Except String (String × CleanDF) := do
  let df_temp := df
  let recs ← exMapM (fun p => saveRow p.1 p.2) df_temp
  return (csvText (csvHeader :: recs), df)

-- ## load_csv

/-- The default NA tokens of read_csv together with the explicit
na_values NA of load_csv (NA is already among the defaults). -/
def naLits : List String :=
  ["", "#N/A", "#N/A N/A", "#NA", "-1.#IND", "-1.#QNAN", "-NaN", "-nan",
   "1.#IND", "1.#QNAN", "<NA>", "N/A", "NA", "NULL", "NaN", "None",
   "n/a", "nan", "null"]

def naify (s : String) : Option String := if naLits.contains s then none else some s

/-- An integer literal as the read_csv tokenizer recognizes one: an
optional sign then bare digits. -/
def pyIntLit (s : String) : Bool :=
  match s.data with
  | [] => false
  | c :: ds =>
    if c = '+' || c = '-' then !ds.isEmpty && ds.all pyIsDigit
    else pyIsDigit c && ds.all pyIsDigit

def pyIntLitVal (s : String) : Int :=
  match s.data with
  | [] => 0
  | c :: ds =>
    if c = '+' then (digitsToNat ds : Int)
    else if c = '-' then -(digitsToNat ds : Int)
    else (digitsToNat (c :: ds) : Int)

/-- The bool tokens the read_csv tokenizer recognizes. -/
def pyBoolLit (s : String) : Bool :=
  s = "True" || s = "TRUE" || s = "true" || s = "False" || s = "FALSE" || s = "false"

def floatChar (c : Char) : Bool :=
  pyIsDigit c || c = '.' || c = 'e' || c = 'E' || c = '+' || c = '-'

/-- An over-approximation of the numeric literals the read_csv tokenizer
parses as floats: an optional sign, then a nonempty run of digits,
points, exponent letters and signs holding at least one digit, or a
case-insensitive infinity or nan word.  Over-approximating is
conservative: it is only used to refuse columns the model does not
cover. -/
def pyFloatLit (s : String) : Bool :=
  let l := stripL s.data
  let l2 := match l with
    | c :: rest => if c = '+' || c = '-' then rest else l
    | [] => []
  (!l2.isEmpty && l2.all floatChar && l2.any pyIsDigit) ||
  (let w := lowerL l2
   w = "inf".data || w = "infinity".data || w = "nan".data)

/-- A token that could make the column numeric or boolean under read_csv
dtype inference. -/
def numLike (s : String) : Bool := pyIntLit s || pyFloatLit s || pyBoolLit s

/-- read_csv column dtype inference, integer case: a column is int64
when it has a value and every value is an integer literal.  Float and
bool inference also exist; columns they would capture are refused by
the guard in loadFromRecords, so cells are produced only for integer
and object columns. -/
def colIsInt (col : List (Option String)) : Bool :=
  col.any (fun o => o.isSome) && col.all (fun o => o.all pyIntLit)

/-- The scalar read_csv delivers for one field of an integer (flag true)
or object (flag false) column.  Float64 and bool columns never reach
this: loadFromRecords refuses them first. -/
def inferCell (colInt : Bool) (o : Option String) : PyScalar :=
  match o with
  | none => .na
  | some s => if colInt then .int (pyIntLitVal s) else .str s

/-- pd.to_datetime with coercion on a read_csv cell of a guarded date
column: only missing and string cells occur there (the loadFromRecords
guard rejects bool date columns, which make the real to_datetime raise,
and numeric ones, which it would turn into epoch timestamps).  A missing
value is NaT. -/
def loadCellDate : PyScalar → Option PDate
  | .str s => parseDate s
  | _ => none

/-- astype Int64 on a loaded cell. -/
def astypeInt64Load : PyScalar → Except String (Option Int)
  | .na => .ok none
  | .int n => .ok (some n)
  | .str s =>
    match pyInt s with
    | some n => .ok (some n)
    | none => .error "ValueError: cannot convert object to Int64"
  | .nan => .ok none
  | .pynone => .ok none

/-- astype string on a loaded cell. -/
def astypeStringLoad : PyScalar → Option String
  | .na => none
  | .str s => some s
  | .int n => some (intToString n)
  | .nan => none
  | .pynone => none

/-- The election re-coercion lambda: iterate the cell, keep missing
entries as pd.NA, int() the rest.  A non-list cell (an integer that
passed through the codec untouched) is not iterable and raises. -/
def electionRestore : PyVal → Except String PyVal
  | .list xs => do
    let ys ← exMapM (fun x =>
      if pdIsna x then Except.ok PyScalar.na
      else
        match x with
        | .str s =>
          match pyInt s with
          | some n => Except.ok (PyScalar.int n)
          | none => Except.error "ValueError: invalid literal for int"
        | .int n => Except.ok (PyScalar.int n)
        | _ => Except.error "TypeError: int() argument") xs
    return .list ys
  | .sc _ => .error "TypeError: object is not iterable"

/-- The nine fields of one parsed record under the canonical header. -/
structure Rec9 where
  number : String
  name : String
  birth : String
  death : String
  term_start : String
  term_end : String
  party : String
  election : String
  vice_president : String
deriving DecidableEq, Repr

def toRec9 (r : List String) : Except String Rec9 :=
  match r with
  | [a, b, c, d, e, f, g, h, i] => .ok ⟨a, b, c, d, e, f, g, h, i⟩
  | _ => .error "ParserError: unexpected number of fields"

/-- The column-inference flags of a parsed record set. -/
structure ColFlags where
  number : Bool
  name : Bool
  birth : Bool
  death : Bool
  term_start : Bool
  term_end : Bool
  party : Bool
  election : Bool
  vice_president : Bool

def colFlags (rows : List Rec9) : ColFlags :=
  ⟨colIsInt (rows.map (fun t => naify t.number)),
   colIsInt (rows.map (fun t => naify t.name)),
   colIsInt (rows.map (fun t => naify t.birth)),
   colIsInt (rows.map (fun t => naify t.death)),
   colIsInt (rows.map (fun t => naify t.term_start)),
   colIsInt (rows.map (fun t => naify t.term_end)),
   colIsInt (rows.map (fun t => naify t.party)),
   colIsInt (rows.map (fun t => naify t.election)),
   colIsInt (rows.map (fun t => naify t.vice_president))⟩

/-- One loaded row: read_csv cells under the inferred dtypes, then the
restoration steps of load_csv (datetime parsing with coercion, list
decoding, election int coercion, Int64 and string astypes). -/
def loadRow (fl : ColFlags) (t : Rec9) : Except String (PyVal × CleanRow) := do
  let idx := inferCell fl.number (naify t.number)
  let nameC := inferCell fl.name (naify t.name)
  let birthC := inferCell fl.birth (naify t.birth)
  let deathC := inferCell fl.death (naify t.death)
  let tsC := inferCell fl.term_start (naify t.term_start)
  let teC := inferCell fl.term_end (naify t.term_end)
  let partyC := inferCell fl.party (naify t.party)
  let elecC := inferCell fl.election (naify t.election)
  let vpC := inferCell fl.vice_president (naify t.vice_president)
  let party ← pipe_string_to_list (.sc partyC)
  let elec0 ← pipe_string_to_list (.sc elecC)
  let vp ← pipe_string_to_list (.sc vpC)
  let birth ← astypeInt64Load birthC
  let death ← astypeInt64Load deathC
  let elec ← electionRestore elec0
  return (.sc idx, ⟨astypeStringLoad nameC, birth, death,
                    loadCellDate tsC, loadCellDate teC, party, elec, vp⟩)

/-- A column read_csv would type float64 or bool: some value present
and every value numeric or boolean, but not a pure integer column. -/
def colFB (col : List (Option String)) : Bool :=
  col.any (fun o => o.isSome) && col.all (fun o => o.all numLike) && !colIsInt col

/-- A pure integer column holding missing values: read_csv promotes it
to float64, so its cells surface as floats, not ints. -/
def colIntNA (col : List (Option String)) : Bool :=
  colIsInt col && col.any (fun o => !o.isSome)

/-- A column of bool tokens (missing values allowed): pd.to_datetime
raises on it even with errors equal coerce. -/
def boolCol (col : List (Option String)) : Bool :=
  col.any (fun o => o.isSome) && col.all (fun o => o.all pyBoolLit)

/-- A numeric column: pd.to_datetime reads it as epoch offsets instead
of coercing, which the model does not cover. -/
def numCol (col : List (Option String)) : Bool :=
  col.any (fun o => o.isSome) &&
  col.all (fun o => o.all (fun u => pyIntLit u || pyFloatLit u))

/-- Every present value of the column is in the exactly-modelled
month-name family. -/
def dateColOK (col : List (Option String)) : Bool :=
  col.all (fun o => o.all dateShape)

/-- A date column the model covers exactly: not bool (real to_datetime
raises), not numeric (real to_datetime gives epoch timestamps), and all
text in the month-name family. -/
def dateColGood (col : List (Option String)) : Bool :=
  !boolCol col && !numCol col && dateColOK col

/-- A column whose cells surface unchanged (index, name and the three
list columns): neither float64 nor bool, and not an integer column
demoted to float64 by missing values. -/
def objColOK (col : List (Option String)) : Bool := !colFB col && !colIntNA col

/-- A column read through astype Int64 (birth, death): int64 and
NA-promoted-float-of-ints columns both restore exactly; float64 of
non-integers and bool are refused. -/
def intColOK (col : List (Option String)) : Bool := !colFB col

/-- The dtype guard of the load model.  The first branch is a real
abort of load_csv: to_datetime on a bool column raises TypeError even
with errors equal coerce.  The second refuses the column configurations
on which read_csv inference or to_datetime diverge from the model, so
every theorem conditioned on a successful load stays inside the
faithful region. -/
def guardOK (tups : List Rec9) : Bool :=
  dateColGood (tups.map (fun t => naify t.term_start)) &&
  dateColGood (tups.map (fun t => naify t.term_end)) &&
  objColOK (tups.map (fun t => naify t.number)) &&
  objColOK (tups.map (fun t => naify t.name)) &&
  intColOK (tups.map (fun t => naify t.birth)) &&
  intColOK (tups.map (fun t => naify t.death)) &&
  objColOK (tups.map (fun t => naify t.party)) &&
  objColOK (tups.map (fun t => naify t.election)) &&
  objColOK (tups.map (fun t => naify t.vice_president))

def loadGuard (tups : List Rec9) : Option String :=
  if boolCol (tups.map (fun t => naify t.term_start)) ||
      boolCol (tups.map (fun t => naify t.term_end)) then
    some "TypeError: dtype bool cannot be converted to datetime64[ns]"
  else if !guardOK tups then
    some "unmodelled read_csv dtype inference for this column set"
  else none

/-- load_csv above the record layer: the first record must be the
canonical header (load_csv indexes the named columns), every record must
have the nine fields, the column dtypes must be in the modelled region
(with the real bool-date-column abort reproduced), and the rows are
restored column by column. -/
def loadFromRecords (recs : List (List String)) : Except String CleanDF := do
  match recs with
  | [] => .error "EmptyDataError: no columns to parse from file"
  | header :: rows =>
    if header = csvHeader then do
      let tups ← exMapM toRec9 rows
      match loadGuard tups with
      | some e => .error e
      | none =>
        let fl := colFlags tups
        exMapM (loadRow fl) tups
    else .error "KeyError: expected column missing"

/-- load_csv: parse the file text into records and restore the frame. -/
def load_csv (file : String) : Except String CleanDF :=
  loadFromRecords (csvParse file)

-- ## Round-trip adjustment (the documented asymmetry)

/-- A raw source row whose vice-president cell contains the pipe
delimiter of the list codec. -/
def rawWashington : RawRow :=
  ⟨.sc (.int 1), .sc (.str "p"), .sc (.str "George Washington (1732–1799)"),
   .sc (.str "April 30, 1789 – March 4, 1797"), .sc (.str "m"),
   .sc (.str "Unaffiliated"), .sc (.str "1788–89 1792"),
   .sc (.str "John Adams | note")⟩

/-- A one-row saved file as a record list, already parsed. -/
def recsTiny : List (List String) :=
  [csvHeader,
   ["1", "George Washington", "1732", "1799", "April 30, 1789", "NA",
    "Unaffiliated", "1788 | 1792", "John Adams"]]

/-- The table load_csv builds from those records. -/
def dfTiny : CleanDF :=
  [(.sc (.int 1),
    ⟨some "George Washington", some 1732, some 1799,
     some ⟨1789, 4, 30⟩, none,
     .list [.str "Unaffiliated"], .list [.int 1788, .int 1792],
     .list [.str "John Adams"]⟩)]

/-- A saved file whose term_start column is a single bool token: real
read_csv types the column bool and pd.to_datetime raises on it. -/
def recsBool : List (List String) :=
  [csvHeader,
   ["1", "George Washington", "1732", "1799", "True", "NA",
    "Unaffiliated", "1788 | 1792", "John Adams"]]

-- ## Round-trip sanity conditions

theorem partyScan_mem :
    ∀ (parts : List String) (current : String) (found : List String) (p : String),
      p ∈ partyScan parts current found → p ∈ found ∨ p ∈ RECOGNIZED_PARTIES := by
  intro parts
  induction parts with
  | nil =>
    intro current found p h
    by_cases hc : current ∈ RECOGNIZED_PARTIES
    · simp [partyScan, hc] at h
      rcases h with h | h
      · exact Or.inl h
      · exact Or.inr (h ▸ hc)
    · simp [partyScan, hc] at h
      exact Or.inl h
  | cons q parts ih =>
    intro current found p h
    by_cases hc : (if current = "" then q else current ++ " " ++ q) ∈ RECOGNIZED_PARTIES
    · simp [partyScan, hc] at h
      rcases ih _ _ _ h with h2 | h2
      · rcases List.mem_append.mp h2 with h3 | h3
        · exact Or.inl h3
        · simp at h3
          exact Or.inr (h3 ▸ hc)
      · exact Or.inr h2
    · simp [partyScan, hc] at h
      exact ih _ _ _ h

theorem dropWhile_head_false {p : Char → Bool} {l rest : List Char} {c : Char}
    (h : l.dropWhile p = c :: rest) : p c = false := by
  induction l with
  | nil => simp at h
  | cons x xs ih =>
    by_cases hx : p x
    · simp [List.dropWhile, hx] at h
      exact ih h
    · simp [List.dropWhile, hx] at h
      rw [← h.1]
      simpa using hx

theorem dropWhile_eq_self {p : Char → Bool} {c : Char} {rest : List Char}
    (h : p c = false) : (c :: rest).dropWhile p = c :: rest := by
  simp [List.dropWhile, h]

/-- dropTrailWs gives a prefix: the list is the result followed by the
dropped tail. -/
theorem dropTrailWs_prefix (l : List Char) :
    ∃ t, l = dropTrailWs l ++ t := by
  refine ⟨(l.reverse.takeWhile isPySpace).reverse, ?_⟩
  unfold dropTrailWs
  have h := List.takeWhile_append_dropWhile (p := isPySpace) (l := l.reverse)
  have h2 := congrArg List.reverse h
  simp only [List.reverse_append, List.reverse_reverse] at h2
  exact h2.symm

theorem stripL_head_false {l rest : List Char} {c : Char}
    (h : stripL l = c :: rest) : isPySpace c = false := by
  unfold stripL at h
  obtain ⟨t, ht⟩ := dropTrailWs_prefix (l.dropWhile isPySpace)
  rw [h] at ht
  exact dropWhile_head_false (by simpa using ht)

theorem stripL_last_false {l : List Char} {c : Char} {ds : List Char}
    (h : (stripL l).reverse = c :: ds) : isPySpace c = false := by
  unfold stripL dropTrailWs at h
  rw [List.reverse_reverse] at h
  exact dropWhile_head_false h

/-- Stripping is idempotent. -/
theorem stripL_idem (l : List Char) : stripL (stripL l) = stripL l := by
  cases hs : stripL l with
  | nil => rfl
  | cons c rest =>
    have hc : isPySpace c = false := stripL_head_false hs
    unfold stripL
    rw [dropWhile_eq_self hc]
    cases hr : (c :: rest).reverse with
    | nil => simp at hr
    | cons d ds =>
      have hd : isPySpace d = false := stripL_last_false (l := l) (by rw [hs, hr])
      unfold dropTrailWs
      rw [hr, dropWhile_eq_self hd, ← hr, List.reverse_reverse]

theorem pyStrip_idem (s : String) : pyStrip (pyStrip s) = pyStrip s := by
  unfold pyStrip
  exact congrArg String.mk (stripL_idem s.data)

-- ## C2: totality of the extractors on non-string cells

/-- C2 (counterexample): split_term and split_name_birth_death do not
pass a non-string input through; applied to a missing cell (a float NaN,
as read_html delivers) they raise TypeError, because neither guards with
isinstance before calling re. -/
theorem splitters_raise_on_nan :
    split_termP (.sc .nan) =
      .error "TypeError: expected string or bytes-like object" ∧
    split_name_birth_deathP (.sc .nan) =
      .error "TypeError: expected string or bytes-like object" := ⟨rfl, rfl⟩

/-- C2 (amended): of the six extractors only remove_footnotes,
extract_parties, extract_vice_presidents and extract_election_dates are
total on non-string input, returning it unchanged; split_name_birth_death
and split_term raise TypeError on every non-string input. -/
theorem extractors_on_nonstring (v : PyVal) (hv : v.isStr = false) :
    (remove_footnotesP v = v ∧ extract_partiesP v = v ∧
     extract_vice_presidentsP v = v ∧ extract_election_datesP v = v) ∧
    split_name_birth_deathP v =
      .error "TypeError: expected string or bytes-like object" ∧
    split_termP v = .error "TypeError: expected string or bytes-like object" := by
  cases v with
  | sc x =>
    cases x with
    | str s => simp [PyVal.isStr] at hv
    | na => exact ⟨⟨rfl, rfl, rfl, rfl⟩, rfl, rfl⟩
    | nan => exact ⟨⟨rfl, rfl, rfl, rfl⟩, rfl, rfl⟩
    | pynone => exact ⟨⟨rfl, rfl, rfl, rfl⟩, rfl, rfl⟩
    | int n => exact ⟨⟨rfl, rfl, rfl, rfl⟩, rfl, rfl⟩
  | list xs => exact ⟨⟨rfl, rfl, rfl, rfl⟩, rfl, rfl⟩

/-- Witness for the amended C2 at the missing-cell value NaN. -/
theorem extractors_on_nonstring_witness :
    PyVal.isStr (.sc .nan) = false ∧
    (remove_footnotesP (.sc .nan) = .sc .nan ∧ extract_partiesP (.sc .nan) = .sc .nan ∧
     extract_vice_presidentsP (.sc .nan) = .sc .nan ∧
     extract_election_datesP (.sc .nan) = .sc .nan) ∧
    split_name_birth_deathP (.sc .nan) =
      .error "TypeError: expected string or bytes-like object" ∧
    split_termP (.sc .nan) =
      .error "TypeError: expected string or bytes-like object" :=
  ⟨rfl, extractors_on_nonstring (.sc .nan) rfl⟩

-- ## C3: extract_parties

/-- C3 (counterexample): on the input XYZ Unaffiliated ABC the
accumulator absorbs the unrecognized token XYZ and never matches again,
so the result is empty rather than the claimed singleton Unaffiliated. -/
theorem extract_parties_counterexample :
    extract_parties "XYZ Unaffiliated ABC" ≠ ["Unaffiliated"] := by decide

/-- C3 (amended): extract_parties emits only recognized party names, in
left-to-right match order; the token accumulator resets only on a match,
so an unrecognized leading token blocks every later match: Federalist and
Democratic - Republican extract as claimed, but XYZ Unaffiliated ABC
yields the empty list. -/
theorem extract_parties_behavior :
    extract_parties "Federalist" = ["Federalist"] ∧
    extract_parties "Democratic - Republican" = ["Democratic-Republican"] ∧
    extract_parties "XYZ Unaffiliated ABC" = [] ∧
    ∀ s p, p ∈ extract_parties s → p ∈ RECOGNIZED_PARTIES := by
  refine ⟨by decide, by decide, by decide, ?_⟩
  intro s p h
  unfold extract_parties at h
  rcases partyScan_mem _ _ _ _ h with h2 | h2
  · simp at h2
  · exact h2

/-- Witness for the amended C3: the vocabulary-membership part applied at
a concrete extraction. -/
theorem extract_parties_behavior_witness :
    "Federalist" ∈ extract_parties "Federalist" ∧
    "Federalist" ∈ RECOGNIZED_PARTIES :=
  ⟨by decide, extract_parties_behavior.2.2.2 "Federalist" "Federalist" (by decide)⟩

-- ## C4: the list codec

/-- C4 (confirmed): the codec encodes the concrete list A, null, B to the
pipe string and decodes it back; an empty or absent (None) list encodes
to the null marker; every missing scalar decodes to the single-null list;
a non-empty list encodes to the pipe join with nulls rendered NA. -/
theorem list_codec_behavior :
    list_to_pipe_string (.list [.str "A", .na, .str "B"]) = .ok (.str "A | NA | B") ∧
    pipe_string_to_list (.sc (.str "A | NA | B")) =
      .ok (.list [.str "A", .na, .str "B"]) ∧
    list_to_pipe_string (.list []) = .ok .na ∧
    list_to_pipe_string (.sc .pynone) = .ok .na ∧
    (∀ x, pdIsna x = true → pipe_string_to_list (.sc x) = .ok (.list [.na])) ∧
    (∀ x xs, list_to_pipe_string (.list (x :: xs)) = .ok (.str ⟨joinPipeL (x :: xs)⟩)) := by
  refine ⟨rfl, rfl, rfl, rfl, ?_, ?_⟩
  · intro x hx
    cases x <;> simp [pipe_string_to_list, pdIsna] at hx ⊢
  · intro x xs
    rfl

/-- Witness for C4 at a missing scalar. -/
theorem list_codec_behavior_witness :
    pdIsna .nan = true ∧ pipe_string_to_list (.sc .nan) = .ok (.list [.na]) :=
  ⟨rfl, list_codec_behavior.2.2.2.2.1 .nan rfl⟩

-- ## C6: extract_election_dates

/-- C6 (confirmed): whitespace split, range collapse to the first half,
integer parse with explicit nulls at failed positions; the output always
has one entry per whitespace token, so failures are never skipped. -/
theorem extract_election_dates_behavior :
    extract_election_dates "1789 1792" = [some 1789, some 1792] ∧
    extract_election_dates "1788–89" = [some 1788] ∧
    extract_election_dates "1789 N/A" = [some 1789, none] ∧
    ∀ s, (extract_election_dates s).length = (splitWsL s.data).length := by
  refine ⟨by decide, by decide, by decide, ?_⟩
  intro s
  simp [extract_election_dates]

-- ## C7: split_name_birth_death

/-- C7 (confirmed): the two recognized shapes extract name and the
four-digit year captures (the year groups are the captured digit strings,
coerced to integers downstream by the cleaner); any non-matching string
yields three nulls, and the name and birth components are always present
or absent together. -/
theorem split_name_birth_death_behavior :
    split_name_birth_death "John Adams (1735–1826)" =
      (some "John Adams", some "1735", some "1826") ∧
    split_name_birth_death "Joe Biden (b. 1942)" =
      (some "Joe Biden", some "1942", none) ∧
    split_name_birth_death "no parens here" = (none, none, none) ∧
    ∀ s, split_name_birth_death s = (none, none, none) ∨
      ∃ n b, (split_name_birth_death s).1 = some n ∧
        (split_name_birth_death s).2.1 = some b := by
  refine ⟨by decide, by decide, by decide, ?_⟩
  intro s
  rcases h : nbdAux [] s.data with _ | ⟨n, b, d⟩
  · left
    simp [split_name_birth_death, h]
  · right
    exact ⟨⟨n⟩, b, by simp [split_name_birth_death, h], by simp [split_name_birth_death, h]⟩

-- ## C8: split_term

/-- C8 (confirmed): a padded en-dash split into exactly two stripped
parts, with the Incumbent sentinel as null end; any other number of parts
gives two nulls. -/
theorem split_term_behavior :
    split_term "March 4, 1797 – March 4, 1801" =
      (some "March 4, 1797", some "March 4, 1801") ∧
    split_term "January 20, 2021 – Incumbent" = (some "January 20, 2021", none) ∧
    (∀ s, (edSplitAux [] s.data).length ≠ 2 → split_term s = (none, none)) ∧
    (∀ s a b, edSplitAux [] s.data = [a, b] →
      split_term s = (some ⟨stripL a⟩,
        if (⟨stripL b⟩ : String) = "Incumbent" then none else some ⟨stripL b⟩)) := by
  refine ⟨by decide, by decide, ?_, ?_⟩
  · intro s h
    unfold split_term
    cases he : edSplitAux [] s.data with
    | nil => simp
    | cons a t =>
      cases t with
      | nil => simp
      | cons b t2 =>
        cases t2 with
        | nil => rw [he] at h; simp at h
        | cons c t3 => simp
  · intro s a b he
    unfold split_term
    rw [he]

/-- Witness for C8: the no-split case at a dash-free string and the
two-part case at a concrete term. -/
theorem split_term_behavior_witness :
    (edSplitAux [] "oops".data).length ≠ 2 ∧ split_term "oops" = (none, none) ∧
    split_term "a – b" = (some "a", some "b") := by
  refine ⟨by decide, split_term_behavior.2.2.1 "oops" (by decide), ?_⟩
  have h := split_term_behavior.2.2.2 "a – b" "a".data "b".data (by decide)
  have e1 : (⟨stripL "a".data⟩ : String) = "a" := by decide
  have e2 : (⟨stripL "b".data⟩ : String) = "b" := by decide
  rw [e1, e2, if_neg (by decide)] at h
  exact h

-- ## C5: extract_vice_presidents

/-- C5 (counterexample): two adjacent vacancy matches leave a
whitespace-only separator segment, which survives the emptiness filter
and strips to the empty string, so the returned list can contain an
empty-string element. -/
theorem extract_vice_presidents_counterexample :
    extract_vice_presidents
      "Vacant throughout presidency Vacant throughout presidency" =
      ["Vacant throughout presidency", "", "Vacant throughout presidency"] ∧
    "" ∈ extract_vice_presidents
      "Vacant throughout presidency Vacant throughout presidency" := by
  constructor
  · decide
  · decide

/-- C5 (amended): extract_vice_presidents normalizes and splits as
claimed, but discards only segments that are empty before trimming; a
whitespace-only segment between two vacancy matches yields an
empty-string element.  Every element is trim-stable, and an empty-string
element arises exactly from a non-empty whitespace-only segment of the
split. -/
theorem extract_vice_presidents_behavior :
    (∀ s, extract_vice_presidents s =
      ((vacSplitAux [] (vpNormalize s)).filter (fun seg => ¬seg.isEmpty)).map
        (fun seg => (⟨stripL seg⟩ : String))) ∧
    (∀ s e, e ∈ extract_vice_presidents s → pyStrip e = e) ∧
    (∀ s, "" ∈ extract_vice_presidents s →
      ∃ seg, seg ∈ vacSplitAux [] (vpNormalize s) ∧ ¬seg.isEmpty ∧ stripL seg = []) := by
  refine ⟨fun s => rfl, ?_, ?_⟩
  · intro s e he
    unfold extract_vice_presidents at he
    obtain ⟨seg, hseg, he2⟩ := List.mem_map.mp he
    rw [← he2]
    unfold pyStrip
    exact congrArg String.mk (by simpa using stripL_idem seg)
  · intro s he
    unfold extract_vice_presidents at he
    obtain ⟨seg, hseg, he2⟩ := List.mem_map.mp he
    obtain ⟨hmem, hne⟩ := List.mem_filter.mp hseg
    refine ⟨seg, hmem, by simpa using hne, ?_⟩
    have : (⟨stripL seg⟩ : String) = ("" : String) := he2
    simpa [String.ext_iff] using this

/-- Witness for the amended C5 at a concrete vice-president cell. -/
theorem extract_vice_presidents_behavior_witness :
    "John Adams" ∈ extract_vice_presidents " John  Adams " ∧
    pyStrip "John Adams" = "John Adams" :=
  ⟨by decide,
   extract_vice_presidents_behavior.2.1 " John  Adams " "John Adams" (by decide)⟩

-- ## C10: the argument frames are not mutated

/-- C10 (confirmed): save_csv and clean_presidents_df copy the argument
frame and assign only into the copy; the caller-visible frame returned in
the second component is the argument itself, unchanged in every field. -/
theorem no_mutation_of_argument :
    (∀ df out, save_csv df = .ok out → out.2 = df) ∧
    (∀ raw out, clean_presidents_df raw = .ok out → out.2 = raw) := by
  constructor
  · intro df out h
    unfold save_csv at h
    dsimp only [] at h
    cases hm : exMapM (fun p => saveRow p.1 p.2) df with
    | error e => rw [hm] at h; simp only [bind, Except.bind] at h; exact absurd h (by simp)
    | ok recs =>
      rw [hm] at h
      simp only [bind, Except.bind, pure, Except.pure, Except.ok.injEq] at h
      rw [← h]
  · intro raw out h
    unfold clean_presidents_df at h
    dsimp only [] at h
    cases hm : exMapM cleanRow (dfCopyRaw raw) with
    | error e => rw [hm] at h; simp only [bind, Except.bind] at h; exact absurd h (by simp)
    | ok cleaned =>
      rw [hm] at h
      simp only [bind, Except.bind, pure, Except.pure, Except.ok.injEq] at h
      rw [← h]

/-- Witness for C10 at the empty frame. -/
theorem no_mutation_of_argument_witness :
    save_csv [] = .ok (csvText [csvHeader], []) ∧
    ((csvText [csvHeader], ([] : CleanDF))).2 = [] ∧
    clean_presidents_df [] = .ok ([], []) ∧
    (([] : CleanDF), ([] : List RawRow)).2 = [] :=
  ⟨rfl, no_mutation_of_argument.1 [] (csvText [csvHeader], []) rfl,
   rfl, no_mutation_of_argument.2 [] ([], []) rfl⟩

-- ## Lemmas on digits and int()

theorem digit_not_space {c : Char} (h : pyIsDigit c = true) : isPySpace c = false := by
  simp [pyIsDigit] at h
  simp [isPySpace]
  omega

theorem digit_not_alpha {c : Char} (h : pyIsDigit c = true) : pyIsAlpha c = false := by
  simp [pyIsDigit] at h
  simp [pyIsAlpha]
  omega

theorem digit_ne_plus {c : Char} (h : pyIsDigit c = true) : c ≠ '+' := by
  intro hc
  subst hc
  exact absurd h (by decide)

theorem digit_ne_minus {c : Char} (h : pyIsDigit c = true) : c ≠ '-' := by
  intro hc
  subst hc
  exact absurd h (by decide)

theorem dropWhile_all_false {p : Char → Bool} :
    ∀ {l : List Char}, (∀ c ∈ l, p c = false) → l.dropWhile p = l := by
  intro l h
  cases l with
  | nil => rfl
  | cons c rest => exact dropWhile_eq_self (h c (by simp))

theorem stripL_all_eq_self {l : List Char} (h : ∀ c ∈ l, isPySpace c = false) :
    stripL l = l := by
  unfold stripL dropTrailWs
  rw [dropWhile_all_false h, dropWhile_all_false (by intro c hc; exact h c (by simpa using hc)),
      List.reverse_reverse]

theorem digitsUSAux_digits :
    ∀ (l : List Char), (∀ c ∈ l, pyIsDigit c = true) →
      ∀ acc, digitsUSAux l acc = some (l.foldl (fun a c => a * 10 + (c.toNat - 48)) acc) := by
  intro l
  induction l with
  | nil => intro _ acc; rfl
  | cons c rest ih =>
    intro h acc
    have hc : pyIsDigit c = true := h c (by simp)
    unfold digitsUSAux
    rw [if_pos hc]
    rw [ih (by intro x hx; exact h x (by simp [hx]))]
    rfl

theorem digitsUS_digits {l : List Char} (hne : l ≠ [])
    (h : ∀ c ∈ l, pyIsDigit c = true) : digitsUS l = some (digitsToNat l) := by
  cases l with
  | nil => exact absurd rfl hne
  | cons c rest =>
    have hc : pyIsDigit c = true := h c (by simp)
    unfold digitsUS
    dsimp only []
    rw [if_pos hc, digitsUSAux_digits rest (by intro x hx; exact h x (by simp [hx]))]
    simp [digitsToNat]

/-- int() succeeds on a non-empty bare digit string. -/
theorem pyIntL_digits {l : List Char} (hne : l ≠ [])
    (h : ∀ c ∈ l, pyIsDigit c = true) :
    pyIntL l = some ((digitsToNat l : Nat) : Int) := by
  unfold pyIntL
  rw [stripL_all_eq_self (by intro c hc; exact digit_not_space (h c hc))]
  cases l with
  | nil => exact absurd rfl hne
  | cons c rest =>
    have hc : pyIsDigit c = true := h c (by simp)
    dsimp only []
    rw [if_neg (digit_ne_plus hc), if_neg (digit_ne_minus hc),
        digitsUS_digits (by simp) h]
    rfl

theorem take4Digits_shape {l : List Char} {s : String} {r : List Char}
    (h : take4Digits l = some (s, r)) :
    s.data.length = 4 ∧ ∀ c ∈ s.data, pyIsDigit c = true := by
  cases l with
  | nil => simp [take4Digits] at h
  | cons a t1 =>
    cases t1 with
    | nil => simp [take4Digits] at h
    | cons b t2 =>
      cases t2 with
      | nil => simp [take4Digits] at h
      | cons c t3 =>
        cases t3 with
        | nil => simp [take4Digits] at h
        | cons d rest =>
          unfold take4Digits at h
          dsimp only [] at h
          by_cases hd : pyIsDigit a && pyIsDigit b && pyIsDigit c && pyIsDigit d
          · rw [if_pos hd] at h
            simp at h
            simp only [Bool.and_eq_true] at hd
            rw [← h.1]
            refine ⟨rfl, ?_⟩
            intro x hx
            simp at hx
            rcases hx with rfl | rfl | rfl | rfl
            · exact hd.1.1.1
            · exact hd.1.1.2
            · exact hd.1.2
            · exact hd.2
          · rw [if_neg hd] at h
            simp at h

theorem take4Digits_pyInt {l : List Char} {s : String} {r : List Char}
    (h : take4Digits l = some (s, r)) : ∃ k, pyInt s = some k := by
  obtain ⟨hlen, hdig⟩ := take4Digits_shape h
  refine ⟨(digitsToNat s.data : Nat), ?_⟩
  unfold pyInt
  exact pyIntL_digits (by intro he; rw [he] at hlen; simp at hlen) hdig

-- ## Lemmas on the name regex captures

theorem parenAlt1_years {rest : List Char} {b : String} {d : Option String}
    (h : parenAlt1 rest = some (b, d)) :
    (∃ k, pyInt b = some k) ∧ ∀ ds, d = some ds → ∃ k, pyInt ds = some k := by
  unfold parenAlt1 at h
  cases h4 : take4Digits rest with
  | none => rw [h4] at h; simp at h
  | some p =>
    obtain ⟨b0, rest2⟩ := p
    rw [h4] at h
    dsimp only [] at h
    cases rest2 with
    | nil => simp at h
    | cons d1 rest3 =>
      dsimp only [] at h
      by_cases hd1 : d1 = '–'
      · rw [if_pos hd1] at h
        cases h5 : take4Digits rest3 with
        | none => rw [h5] at h; simp at h
        | some q =>
          obtain ⟨d0, rest4⟩ := q
          rw [h5] at h
          dsimp only [] at h
          cases rest4 with
          | nil => simp at h
          | cons c2 r5 =>
            dsimp only [] at h
            by_cases hc2 : c2 = ')'
            · rw [if_pos hc2] at h
              simp at h
              obtain ⟨hb, hd⟩ := h
              constructor
              · rw [← hb]
                exact take4Digits_pyInt h4
              · intro ds hds
                rw [← hd] at hds
                simp at hds
                rw [← hds]
                exact take4Digits_pyInt h5
            · rw [if_neg hc2] at h; simp at h
      · rw [if_neg hd1] at h; simp at h

theorem parenAlt2_years {rest : List Char} {b : String} {d : Option String}
    (h : parenAlt2 rest = some (b, d)) :
    (∃ k, pyInt b = some k) ∧ ∀ ds, d = some ds → ∃ k, pyInt ds = some k := by
  unfold parenAlt2 at h
  split at h
  · rename_i rest2
    cases h4 : take4Digits rest2 with
    | none => rw [h4] at h; simp at h
    | some p =>
      obtain ⟨b0, rest3⟩ := p
      rw [h4] at h
      dsimp only [] at h
      cases rest3 with
      | nil => simp at h
      | cons c2 r4 =>
        dsimp only [] at h
        by_cases hc2 : c2 = ')'
        · rw [if_pos hc2] at h
          simp at h
          obtain ⟨hb, hd⟩ := h
          constructor
          · rw [← hb]
            exact take4Digits_pyInt h4
          · intro ds hds
            rw [← hd] at hds
            simp at hds
        · rw [if_neg hc2] at h; simp at h
  · simp at h

theorem parenMatch_years {l : List Char} {b : String} {d : Option String}
    (h : parenMatch l = some (b, d)) :
    (∃ k, pyInt b = some k) ∧ ∀ ds, d = some ds → ∃ k, pyInt ds = some k := by
  unfold parenMatch at h
  cases hd : l.dropWhile isPySpace with
  | nil => rw [hd] at h; simp at h
  | cons c rest =>
    rw [hd] at h
    dsimp only [] at h
    by_cases hc : c = '('
    · rw [if_pos hc] at h
      cases h1 : parenAlt1 rest with
      | some r =>
        rw [h1] at h
        simp at h
        obtain ⟨r1, r2⟩ := r
        simp at h
        exact h.1 ▸ h.2 ▸ parenAlt1_years h1
      | none =>
        rw [h1] at h
        dsimp only [] at h
        exact parenAlt2_years h
    · rw [if_neg hc] at h; simp at h

theorem nbdAux_nil (pre : List Char) :
    nbdAux pre [] = match parenMatch [] with
      | some (b, d) => some (pre.reverse, b, d)
      | none => none := rfl

theorem nbdAux_cons (pre : List Char) (c : Char) (rest : List Char) :
    nbdAux pre (c :: rest) = match parenMatch (c :: rest) with
      | some (b, d) => some (pre.reverse, b, d)
      | none => if c = '\n' then none else nbdAux (c :: pre) rest := rfl

theorem nbdAux_years :
    ∀ (l pre : List Char) (nm : List Char) (b : String) (d : Option String),
      nbdAux pre l = some (nm, b, d) →
      (∃ k, pyInt b = some k) ∧ ∀ ds, d = some ds → ∃ k, pyInt ds = some k := by
  intro l
  induction l with
  | nil =>
    intro pre nm b d h
    rw [nbdAux_nil] at h
    cases hp : parenMatch [] with
    | some bd =>
      obtain ⟨b0, d0⟩ := bd
      rw [hp] at h
      simp at h
      exact h.2.1 ▸ h.2.2 ▸ parenMatch_years hp
    | none => rw [hp] at h; simp at h
  | cons c rest ih =>
    intro pre nm b d h
    rw [nbdAux_cons] at h
    cases hp : parenMatch (c :: rest) with
    | some bd =>
      obtain ⟨b0, d0⟩ := bd
      rw [hp] at h
      simp at h
      exact h.2.1 ▸ h.2.2 ▸ parenMatch_years hp
    | none =>
      rw [hp] at h
      dsimp only [] at h
      by_cases hc : c = '\n'
      · rw [if_pos hc] at h; simp at h
      · rw [if_neg hc] at h
        exact ih _ _ _ _ h

/-- The year captures of split_name_birth_death always convert with
int(). -/
theorem split_name_birth_death_years (s : String) :
    (∀ bs, (split_name_birth_death s).2.1 = some bs → ∃ k, pyInt bs = some k) ∧
    (∀ ds, (split_name_birth_death s).2.2 = some ds → ∃ k, pyInt ds = some k) := by
  cases h : nbdAux [] s.data with
  | none =>
    unfold split_name_birth_death
    rw [h]
    exact ⟨by simp, by simp⟩
  | some t =>
    obtain ⟨nm, b0, d0⟩ := t
    have hy := nbdAux_years _ _ _ _ _ h
    unfold split_name_birth_death
    rw [h]
    constructor
    · intro bs hbs
      simp at hbs
      exact hbs ▸ hy.1
    · intro ds hds
      simp at hds
      exact hy.2 ds hds

-- ## Totality of the row cleaner on string cells

theorem isStr_shape {v : PyVal} (h : v.isStr = true) : ∃ s, v = .sc (.str s) := by
  cases v with
  | sc x =>
    cases x with
    | str s => exact ⟨s, rfl⟩
    | na => simp [PyVal.isStr] at h
    | nan => simp [PyVal.isStr] at h
    | pynone => simp [PyVal.isStr] at h
    | int n => simp [PyVal.isStr] at h
  | list xs => simp [PyVal.isStr] at h

theorem astypeInt64Cell_ok_of_years {o : Option String}
    (h : ∀ bs, o = some bs → ∃ k, pyInt bs = some k) :
    ∃ v, astypeInt64Cell o = .ok v := by
  cases o with
  | none => exact ⟨none, rfl⟩
  | some bs =>
    obtain ⟨k, hk⟩ := h bs rfl
    refine ⟨some k, ?_⟩
    unfold astypeInt64Cell
    dsimp only []
    rw [hk]

theorem cleanRow_ok (r : RawRow) (h2 : r.c2.isStr = true) (h3 : r.c3.isStr = true) :
    ∃ out, cleanRow r = .ok out := by
  obtain ⟨s2, hs2⟩ := isStr_shape h2
  obtain ⟨s3, hs3⟩ := isStr_shape h3
  unfold cleanRow
  rw [hs2, hs3]
  dsimp only [remove_footnotesP, split_name_birth_deathP, split_termP, bind, Except.bind]
  rcases hsp : split_name_birth_death (remove_footnotes s2) with ⟨name, birthS, deathS⟩
  dsimp only []
  rcases hst : split_term (remove_footnotes s3) with ⟨tsS, teS⟩
  dsimp only []
  obtain ⟨bv, hbv⟩ := astypeInt64Cell_ok_of_years (o := birthS) (by
    intro bs hbs
    exact (split_name_birth_death_years (remove_footnotes s2)).1 bs (by rw [hsp, hbs]))
  obtain ⟨dv, hdv⟩ := astypeInt64Cell_ok_of_years (o := deathS) (by
    intro ds hds
    exact (split_name_birth_death_years (remove_footnotes s2)).2 ds (by rw [hsp, hds]))
  rw [hbv]
  dsimp only []
  rw [hdv]
  dsimp only []
  exact ⟨_, rfl⟩

-- ## Lemmas on exMapM

theorem exMapM_ok_of_forall {α β : Type} {f : α → Except String β} :
    ∀ {l : List α}, (∀ a ∈ l, ∃ b, f a = .ok b) →
      ∃ ys, exMapM f l = .ok ys ∧ ys.length = l.length := by
  intro l
  induction l with
  | nil => intro _; exact ⟨[], rfl, rfl⟩
  | cons a as ih =>
    intro h
    obtain ⟨b, hb⟩ := h a (by simp)
    obtain ⟨ys, hys, hlen⟩ := ih (by intro x hx; exact h x (by simp [hx]))
    refine ⟨b :: ys, ?_, by simp [hlen]⟩
    unfold exMapM
    rw [hb]
    dsimp only [bind, Except.bind]
    rw [hys]
    rfl

theorem exMapM_length {α β : Type} {f : α → Except String β} :
    ∀ {l : List α} {ys : List β}, exMapM f l = .ok ys → ys.length = l.length := by
  intro l
  induction l with
  | nil =>
    intro ys h
    simp [exMapM] at h
    rw [h]
    rfl
  | cons a as ih =>
    intro ys h
    unfold exMapM at h
    cases hb : f a with
    | error e => rw [hb] at h; simp [bind, Except.bind] at h
    | ok b =>
      rw [hb] at h
      dsimp only [bind, Except.bind] at h
      cases hys : exMapM f as with
      | error e => rw [hys] at h; simp [bind, Except.bind] at h
      | ok bs =>
        rw [hys] at h
        dsimp only [bind, Except.bind, pure, Except.pure] at h
        cases h
        simp [ih hys]

theorem exMapM_mem {α β : Type} {f : α → Except String β} :
    ∀ {l : List α} {ys : List β}, exMapM f l = .ok ys →
      ∀ y ∈ ys, ∃ a ∈ l, f a = .ok y := by
  intro l
  induction l with
  | nil =>
    intro ys h y hy
    simp [exMapM] at h
    rw [h] at hy
    simp at hy
  | cons a as ih =>
    intro ys h y hy
    unfold exMapM at h
    cases hb : f a with
    | error e => rw [hb] at h; simp [bind, Except.bind] at h
    | ok b =>
      rw [hb] at h
      dsimp only [bind, Except.bind] at h
      cases hys : exMapM f as with
      | error e => rw [hys] at h; simp [bind, Except.bind] at h
      | ok bs =>
        rw [hys] at h
        dsimp only [bind, Except.bind, pure, Except.pure] at h
        cases h
        rcases List.mem_cons.mp hy with rfl | hmem
        · exact ⟨a, by simp, hb⟩
        · obtain ⟨x, hx, hfx⟩ := ih hys y hmem
          exact ⟨x, by simp [hx], hfx⟩

-- ## Lemmas on decimal rendering

theorem minus_not_space : isPySpace '-' = false := by decide

theorem minus_not_digit : pyIsDigit '-' = false := by decide

theorem monthFromName_nil : monthFromName [] = none := by decide

theorem plus_not_space : isPySpace '+' = false := by decide

theorem plus_not_alpha : pyIsAlpha '+' = false := by decide

theorem minus_not_alpha : pyIsAlpha '-' = false := by decide

/-- A string whose stripped form does not begin with a letter is not a
date for the modelled pd.to_datetime. -/
theorem parseDateL_none_of_head (l : List Char)
    (h : ∀ c rest, stripL l = c :: rest → pyIsAlpha c = false) :
    parseDateL l = none := by
  unfold parseDateL
  cases hs : stripL l with
  | nil =>
    dsimp only []
    rw [List.takeWhile_nil, monthFromName_nil]
  | cons c rest =>
    dsimp only []
    have hc := h c rest hs
    rw [takeWhile_nil_of_head hc, monthFromName_nil]
where
  takeWhile_nil_of_head {c : Char} {rest : List Char} (hc : pyIsAlpha c = false) :
      (c :: rest).takeWhile pyIsAlpha = [] := by
    simp [List.takeWhile, hc]

/-- Integer literals never parse as dates. -/
theorem parseDate_intlit {s : String} (h : pyIntLit s = true) : parseDate s = none := by
  unfold parseDate
  apply parseDateL_none_of_head
  intro c rest hs
  cases hd : s.data with
  | nil =>
    unfold pyIntLit at h
    rw [hd] at h
    simp at h
  | cons c0 ds =>
    unfold pyIntLit at h
    rw [hd] at h
    dsimp only [] at h
    by_cases hsign : c0 = '+' || c0 = '-'
    · rw [if_pos hsign] at h
      simp at h hsign
      have hall : ∀ x ∈ c0 :: ds, isPySpace x = false := by
        intro x hx
        rcases List.mem_cons.mp hx with rfl | hx
        · rcases hsign with rfl | rfl
          · exact plus_not_space
          · exact minus_not_space
        · exact digit_not_space (h.2 x hx)
      rw [hd, stripL_all_eq_self hall] at hs
      have : c = c0 := by
        have := hs
        simp at this
        exact this.1.symm
      rw [this]
      rcases hsign with rfl | rfl
      · exact plus_not_alpha
      · exact minus_not_alpha
    · rw [if_neg (by simpa using hsign)] at h
      simp at h
      have hall : ∀ x ∈ c0 :: ds, isPySpace x = false := by
        intro x hx
        rcases List.mem_cons.mp hx with rfl | hx
        · exact digit_not_space h.1
        · exact digit_not_space (h.2 x hx)
      rw [hd, stripL_all_eq_self hall] at hs
      have : c = c0 := by
        have := hs
        simp at this
        exact this.1.symm
      rw [this]
      exact digit_not_alpha h.1

/-- The one date cell rule that makes loading date columns total: under
either inferred dtype of a column whose integral fields are literals, the
resulting value is the cellwise coercion of the field. -/
theorem dateCell_eq (o : Option String) (flag : Bool)
    (h : ∀ u, o = some u → flag = true → pyIntLit u = true) :
    loadCellDate (inferCell flag o) = to_datetime_coerce o := by
  cases o with
  | none =>
    cases flag <;> rfl
  | some u =>
    cases hf : flag with
    | false => rfl
    | true =>
      have := parseDate_intlit (h u rfl hf)
      unfold inferCell loadCellDate to_datetime_coerce
      dsimp only []
      rw [if_pos rfl]
      dsimp only [Option.bind]
      rw [this]

/-- colIsInt means every present field is an integer literal. -/
theorem colIsInt_all {col : List (Option String)} (h : colIsInt col = true) :
    ∀ o ∈ col, ∀ u, o = some u → pyIntLit u = true := by
  unfold colIsInt at h
  simp only [Bool.and_eq_true] at h
  intro o ho u hu
  have := (List.all_eq_true.mp h.2) o ho
  rw [hu] at this
  simpa using this

-- ## Record surgery for the load-stage independence of the date columns

/-- Replace the term_start field (position four) of data row i. -/
def setField4 : List (List String) → Nat → String → List (List String)
  | [], _, _ => []
  | r :: rs, 0, s => r.set 4 s :: rs
  | r :: rs, i + 1, s => r :: setField4 rs i s

/-- Replace the term_start field of data row i of a record set (the
first record is the header). -/
def setTS (recs : List (List String)) (i : Nat) (s : String) : List (List String) :=
  match recs with
  | [] => []
  | header :: rows => header :: setField4 rows i s

def setRec9 : List Rec9 → Nat → String → List Rec9
  | [], _, _ => []
  | t :: ts, 0, s => {t with term_start := s} :: ts
  | t :: ts, i + 1, s => t :: setRec9 ts i s

/-- Replace the term_start value of row i of a cleaned table. -/
def setTSrow : CleanDF → Nat → Option PDate → CleanDF
  | [], _, _ => []
  | p :: ps, 0, d => (p.1, {p.2 with term_start := d}) :: ps
  | p :: ps, i + 1, d => p :: setTSrow ps i d

theorem toRec9_set4 {r : List String} {t : Rec9} (h : toRec9 r = .ok t) (s : String) :
    toRec9 (r.set 4 s) = .ok {t with term_start := s} := by
  rcases r with _ | ⟨a, _ | ⟨b, _ | ⟨c, _ | ⟨d, _ | ⟨e, _ | ⟨f, _ | ⟨g, _ | ⟨h8, _ | ⟨i9, _ | ⟨j, rest⟩⟩⟩⟩⟩⟩⟩⟩⟩⟩ <;>
    simp [toRec9] at h
  subst h
  rfl

theorem exMapM_toRec9_set :
    ∀ (rows : List (List String)) (i : Nat) (s : String) (tups : List Rec9),
      exMapM toRec9 rows = .ok tups →
      exMapM toRec9 (setField4 rows i s) = .ok (setRec9 tups i s) := by
  intro rows
  induction rows with
  | nil =>
    intro i s tups h
    simp [exMapM] at h
    rw [h]
    rfl
  | cons r rs ih =>
    intro i s tups h
    unfold exMapM at h
    cases hr : toRec9 r with
    | error e => rw [hr] at h; simp [bind, Except.bind] at h
    | ok t =>
      rw [hr] at h
      dsimp only [bind, Except.bind] at h
      cases hrs : exMapM toRec9 rs with
      | error e => rw [hrs] at h; simp [bind, Except.bind] at h
      | ok ts =>
        rw [hrs] at h
        dsimp only [bind, Except.bind, pure, Except.pure] at h
        cases h
        cases i with
        | zero =>
          unfold setField4 setRec9
          unfold exMapM
          rw [toRec9_set4 hr s]
          dsimp only [bind, Except.bind]
          rw [hrs]
          rfl
        | succ i =>
          unfold setField4 setRec9
          unfold exMapM
          rw [hr]
          dsimp only [bind, Except.bind]
          rw [ih i s ts hrs]
          rfl

theorem setRec9_proj {γ : Type} (g : Rec9 → γ)
    (hg : ∀ t v, g {t with term_start := v} = g t) :
    ∀ (tups : List Rec9) (i : Nat) (s : String),
      (setRec9 tups i s).map g = tups.map g := by
  intro tups
  induction tups with
  | nil => intro i s; rfl
  | cons t ts ih =>
    intro i s
    cases i with
    | zero => simp [setRec9, hg]
    | succ i => simp [setRec9, ih]

theorem setRec9_ts_col :
    ∀ (tups : List Rec9) (i : Nat) (s : String),
      (setRec9 tups i s).map (fun t => naify t.term_start) =
        ((tups.map (fun t => naify t.term_start)).set i (naify s)) := by
  intro tups
  induction tups with
  | nil => intro i s; rfl
  | cons t ts ih =>
    intro i s
    cases i with
    | zero => simp [setRec9, List.set]
    | succ i => simp [setRec9, List.set, ih]

/-- loadRow under a term_start surgery: every other column's processing
is untouched, and the term_start output is the date cell of the new
field. -/
theorem loadRow_ts (fl fl' : ColFlags) (t : Rec9) (s : String) (out : PyVal × CleanRow)
    (e0 : fl'.number = fl.number) (e1 : fl'.name = fl.name) (e2 : fl'.birth = fl.birth)
    (e3 : fl'.death = fl.death) (e5 : fl'.term_end = fl.term_end)
    (e6 : fl'.party = fl.party) (e7 : fl'.election = fl.election)
    (e8 : fl'.vice_president = fl.vice_president)
    (h : loadRow fl t = .ok out) :
    loadRow fl' {t with term_start := s} =
      .ok (out.1, {out.2 with
        term_start := loadCellDate (inferCell fl'.term_start (naify s))}) := by
  unfold loadRow at h ⊢
  dsimp only [bind, Except.bind] at h ⊢
  rw [e0, e1, e2, e3, e5, e6, e7, e8]
  cases hp : pipe_string_to_list (.sc (inferCell fl.party (naify t.party))) with
  | error e => rw [hp] at h; simp at h
  | ok party =>
    rw [hp] at h
    dsimp only [] at h ⊢
    cases he : pipe_string_to_list (.sc (inferCell fl.election (naify t.election))) with
    | error e => rw [he] at h; simp at h
    | ok elec0 =>
      rw [he] at h
      dsimp only [] at h ⊢
      cases hv : pipe_string_to_list (.sc (inferCell fl.vice_president
          (naify t.vice_president))) with
      | error e => rw [hv] at h; simp at h
      | ok vp =>
        rw [hv] at h
        dsimp only [] at h ⊢
        cases hb : astypeInt64Load (inferCell fl.birth (naify t.birth)) with
        | error e => rw [hb] at h; simp at h
        | ok birth =>
          rw [hb] at h
          dsimp only [] at h ⊢
          cases hd : astypeInt64Load (inferCell fl.death (naify t.death)) with
          | error e => rw [hd] at h; simp at h
          | ok death =>
            rw [hd] at h
            dsimp only [] at h ⊢
            cases hel : electionRestore elec0 with
            | error e => rw [hel] at h; simp at h
            | ok elec =>
              rw [hel] at h
              dsimp only [pure, Except.pure] at h ⊢
              cases h
              rfl

/-- The term_start value of a loaded row is the date cell of its
term_start field under the column flag. -/
theorem loadRow_ts_field (fl : ColFlags) (t : Rec9) (out : PyVal × CleanRow)
    (h : loadRow fl t = .ok out) :
    out.2.term_start = loadCellDate (inferCell fl.term_start (naify t.term_start)) := by
  unfold loadRow at h
  dsimp only [bind, Except.bind] at h
  cases hp : pipe_string_to_list (.sc (inferCell fl.party (naify t.party))) with
  | error e => rw [hp] at h; simp at h
  | ok party =>
    rw [hp] at h
    dsimp only [] at h
    cases he : pipe_string_to_list (.sc (inferCell fl.election (naify t.election))) with
    | error e => rw [he] at h; simp at h
    | ok elec0 =>
      rw [he] at h
      dsimp only [] at h
      cases hv : pipe_string_to_list (.sc (inferCell fl.vice_president
          (naify t.vice_president))) with
      | error e => rw [hv] at h; simp at h
      | ok vp =>
        rw [hv] at h
        dsimp only [] at h
        cases hb : astypeInt64Load (inferCell fl.birth (naify t.birth)) with
        | error e => rw [hb] at h; simp at h
        | ok birth =>
          rw [hb] at h
          dsimp only [] at h
          cases hd : astypeInt64Load (inferCell fl.death (naify t.death)) with
          | error e => rw [hd] at h; simp at h
          | ok death =>
            rw [hd] at h
            dsimp only [] at h
            cases hel : electionRestore elec0 with
            | error e => rw [hel] at h; simp at h
            | ok elec =>
              rw [hel] at h
              dsimp only [pure, Except.pure] at h
              cases h
              rfl

/-- A row loads to the same result under two flag vectors that agree on
the eight non-term_start columns and give the same term_start date. -/
theorem loadRow_congr (fl fl' : ColFlags) (t : Rec9) (out : PyVal × CleanRow)
    (e0 : fl'.number = fl.number) (e1 : fl'.name = fl.name) (e2 : fl'.birth = fl.birth)
    (e3 : fl'.death = fl.death) (e5 : fl'.term_end = fl.term_end)
    (e6 : fl'.party = fl.party) (e7 : fl'.election = fl.election)
    (e8 : fl'.vice_president = fl.vice_president)
    (hts : loadCellDate (inferCell fl'.term_start (naify t.term_start)) =
      loadCellDate (inferCell fl.term_start (naify t.term_start)))
    (h : loadRow fl t = .ok out) : loadRow fl' t = .ok out := by
  have h2 := loadRow_ts fl fl' t t.term_start out e0 e1 e2 e3 e5 e6 e7 e8 h
  have h3 := loadRow_ts_field fl t out h
  rw [hts, ← h3] at h2
  exact h2

/-- exMapM over loadRow is stable under such a flag change. -/
theorem exMapM_loadRow_congr (fl fl' : ColFlags)
    (e0 : fl'.number = fl.number) (e1 : fl'.name = fl.name) (e2 : fl'.birth = fl.birth)
    (e3 : fl'.death = fl.death) (e5 : fl'.term_end = fl.term_end)
    (e6 : fl'.party = fl.party) (e7 : fl'.election = fl.election)
    (e8 : fl'.vice_president = fl.vice_president) :
    ∀ (ts : List Rec9) (T : CleanDF),
      (∀ t ∈ ts, loadCellDate (inferCell fl'.term_start (naify t.term_start)) =
        loadCellDate (inferCell fl.term_start (naify t.term_start))) →
      exMapM (loadRow fl) ts = .ok T → exMapM (loadRow fl') ts = .ok T := by
  intro ts
  induction ts with
  | nil => intro T _ h; exact h
  | cons t ts ih =>
    intro T hc h
    simp only [exMapM] at h ⊢
    dsimp only [bind, Except.bind] at h ⊢
    cases hfa : loadRow fl t with
    | error e => rw [hfa] at h; simp at h
    | ok out =>
      rw [hfa] at h
      rw [loadRow_congr fl fl' t out e0 e1 e2 e3 e5 e6 e7 e8
        (hc t (List.mem_cons_self t ts)) hfa]
      dsimp only [] at h ⊢
      cases hrest : exMapM (loadRow fl) ts with
      | error e => rw [hrest] at h; simp at h
      | ok outs =>
        rw [hrest] at h
        rw [ih outs (fun u hu => hc u (List.mem_cons_of_mem _ hu)) hrest]
        exact h

/-- The load of a record list after a term_start surgery: rows other
than i are unchanged, row i gets the coerced date of the new text. -/
theorem exMapM_loadRow_set (fl fl' : ColFlags)
    (e0 : fl'.number = fl.number) (e1 : fl'.name = fl.name) (e2 : fl'.birth = fl.birth)
    (e3 : fl'.death = fl.death) (e5 : fl'.term_end = fl.term_end)
    (e6 : fl'.party = fl.party) (e7 : fl'.election = fl.election)
    (e8 : fl'.vice_president = fl.vice_president) :
    ∀ (tups : List Rec9) (i : Nat) (s : String) (T : CleanDF),
      (∀ t ∈ tups, ∀ u, naify t.term_start = some u → fl.term_start = true →
        pyIntLit u = true) →
      (∀ t ∈ setRec9 tups i s, ∀ u, naify t.term_start = some u → fl'.term_start = true →
        pyIntLit u = true) →
      exMapM (loadRow fl) tups = .ok T →
      exMapM (loadRow fl') (setRec9 tups i s) =
        .ok (setTSrow T i (to_datetime_coerce (naify s))) := by
  intro tups
  induction tups with
  | nil =>
    intro i s T _ _ h
    cases h
    rfl
  | cons t ts ih =>
    intro i s T hOld hNew h
    simp only [exMapM] at h
    dsimp only [bind, Except.bind] at h
    cases hfa : loadRow fl t with
    | error e => rw [hfa] at h; simp at h
    | ok out =>
      rw [hfa] at h
      dsimp only [] at h
      cases hrest : exMapM (loadRow fl) ts with
      | error e => rw [hrest] at h; simp at h
      | ok outs =>
        rw [hrest] at h
        dsimp only [pure, Except.pure] at h
        cases h
        have hOldT : ∀ u ∈ ts, ∀ v, naify u.term_start = some v → fl.term_start = true →
            pyIntLit v = true :=
          fun u hu => hOld u (List.mem_cons_of_mem _ hu)
        cases i with
        | zero =>
          have hNewHead : ∀ u, naify s = some u → fl'.term_start = true →
              pyIntLit u = true :=
            fun u hu hf => hNew {t with term_start := s} (List.mem_cons_self _ _) u hu hf
          have hNewT : ∀ u ∈ ts, ∀ v, naify u.term_start = some v → fl'.term_start = true →
              pyIntLit v = true :=
            fun u hu => hNew u (List.mem_cons_of_mem _ hu)
          have hd : loadCellDate (inferCell fl'.term_start (naify s)) =
              to_datetime_coerce (naify s) :=
            dateCell_eq (naify s) fl'.term_start hNewHead
          have hcond : ∀ u ∈ ts,
              loadCellDate (inferCell fl'.term_start (naify u.term_start)) =
                loadCellDate (inferCell fl.term_start (naify u.term_start)) := by
            intro u hu
            rw [dateCell_eq _ fl'.term_start (hNewT u hu),
              dateCell_eq _ fl.term_start (hOldT u hu)]
          simp only [setRec9, setTSrow, exMapM]
          dsimp only [bind, Except.bind]
          rw [loadRow_ts fl fl' t s out e0 e1 e2 e3 e5 e6 e7 e8 hfa]
          dsimp only []
          rw [exMapM_loadRow_congr fl fl' e0 e1 e2 e3 e5 e6 e7 e8 ts outs hcond hrest]
          dsimp only [pure, Except.pure]
          rw [hd]
        | succ i =>
          have hNewHead : ∀ u, naify t.term_start = some u → fl'.term_start = true →
              pyIntLit u = true :=
            fun u hu hf => hNew t (List.mem_cons_self _ _) u hu hf
          have hNewT : ∀ u ∈ setRec9 ts i s, ∀ v, naify u.term_start = some v →
              fl'.term_start = true → pyIntLit v = true :=
            fun u hu => hNew u (List.mem_cons_of_mem _ hu)
          have hc : loadCellDate (inferCell fl'.term_start (naify t.term_start)) =
              loadCellDate (inferCell fl.term_start (naify t.term_start)) := by
            rw [dateCell_eq _ fl'.term_start hNewHead,
              dateCell_eq _ fl.term_start (fun u hu hf => hOld t (List.mem_cons_self _ _) u hu hf)]
          simp only [setRec9, setTSrow, exMapM]
          dsimp only [bind, Except.bind]
          rw [loadRow_congr fl fl' t out e0 e1 e2 e3 e5 e6 e7 e8 hc hfa]
          dsimp only []
          rw [ih i s outs hOldT hNewT hrest]
          rfl



-- ## The same record surgery for the term_end field

def setField5 : List (List String) → Nat → String → List (List String)
  | [], _, _ => []
  | r :: rs, 0, s => r.set 5 s :: rs
  | r :: rs, i + 1, s => r :: setField5 rs i s

/-- Replace the term_end field of data row i of a record set (the
first record is the header). -/
def setTE (recs : List (List String)) (i : Nat) (s : String) : List (List String) :=
  match recs with
  | [] => []
  | header :: rows => header :: setField5 rows i s

def setRec9TE : List Rec9 → Nat → String → List Rec9
  | [], _, _ => []
  | t :: ts, 0, s => {t with term_end := s} :: ts
  | t :: ts, i + 1, s => t :: setRec9TE ts i s

/-- Replace the term_end value of row i of a cleaned table. -/
def setTErow : CleanDF → Nat → Option PDate → CleanDF
  | [], _, _ => []
  | p :: ps, 0, d => (p.1, {p.2 with term_end := d}) :: ps
  | p :: ps, i + 1, d => p :: setTErow ps i d

theorem toRec9_set5 {r : List String} {t : Rec9} (h : toRec9 r = .ok t) (s : String) :
    toRec9 (r.set 5 s) = .ok {t with term_end := s} := by
  rcases r with _ | ⟨a, _ | ⟨b, _ | ⟨c, _ | ⟨d, _ | ⟨e, _ | ⟨f, _ | ⟨g, _ | ⟨h8, _ | ⟨i9, _ | ⟨j, rest⟩⟩⟩⟩⟩⟩⟩⟩⟩⟩ <;>
    simp [toRec9] at h
  subst h
  rfl

theorem exMapM_toRec9_setTE :
    ∀ (rows : List (List String)) (i : Nat) (s : String) (tups : List Rec9),
      exMapM toRec9 rows = .ok tups →
      exMapM toRec9 (setField5 rows i s) = .ok (setRec9TE tups i s) := by
  intro rows
  induction rows with
  | nil =>
    intro i s tups h
    simp [exMapM] at h
    rw [h]
    rfl
  | cons r rs ih =>
    intro i s tups h
    unfold exMapM at h
    cases hr : toRec9 r with
    | error e => rw [hr] at h; simp [bind, Except.bind] at h
    | ok t =>
      rw [hr] at h
      dsimp only [bind, Except.bind] at h
      cases hrs : exMapM toRec9 rs with
      | error e => rw [hrs] at h; simp [bind, Except.bind] at h
      | ok ts =>
        rw [hrs] at h
        dsimp only [bind, Except.bind, pure, Except.pure] at h
        cases h
        cases i with
        | zero =>
          unfold setField5 setRec9TE
          unfold exMapM
          rw [toRec9_set5 hr s]
          dsimp only [bind, Except.bind]
          rw [hrs]
          rfl
        | succ i =>
          unfold setField5 setRec9TE
          unfold exMapM
          rw [hr]
          dsimp only [bind, Except.bind]
          rw [ih i s ts hrs]
          rfl

theorem setRec9TE_proj {γ : Type} (g : Rec9 → γ)
    (hg : ∀ t v, g {t with term_end := v} = g t) :
    ∀ (tups : List Rec9) (i : Nat) (s : String),
      (setRec9TE tups i s).map g = tups.map g := by
  intro tups
  induction tups with
  | nil => intro i s; rfl
  | cons t ts ih =>
    intro i s
    cases i with
    | zero => simp [setRec9TE, hg]
    | succ i => simp [setRec9TE, ih]

theorem setRec9TE_te_col :
    ∀ (tups : List Rec9) (i : Nat) (s : String),
      (setRec9TE tups i s).map (fun t => naify t.term_end) =
        ((tups.map (fun t => naify t.term_end)).set i (naify s)) := by
  intro tups
  induction tups with
  | nil => intro i s; rfl
  | cons t ts ih =>
    intro i s
    cases i with
    | zero => simp [setRec9TE, List.set]
    | succ i => simp [setRec9TE, List.set, ih]

/-- loadRow under a term_end surgery: every other column's processing
is untouched, and the term_end output is the date cell of the new
field. -/
theorem loadRow_te (fl fl' : ColFlags) (t : Rec9) (s : String) (out : PyVal × CleanRow)
    (e0 : fl'.number = fl.number) (e1 : fl'.name = fl.name) (e2 : fl'.birth = fl.birth)
    (e3 : fl'.death = fl.death) (e5 : fl'.term_start = fl.term_start)
    (e6 : fl'.party = fl.party) (e7 : fl'.election = fl.election)
    (e8 : fl'.vice_president = fl.vice_president)
    (h : loadRow fl t = .ok out) :
    loadRow fl' {t with term_end := s} =
      .ok (out.1, {out.2 with
        term_end := loadCellDate (inferCell fl'.term_end (naify s))}) := by
  unfold loadRow at h ⊢
  dsimp only [bind, Except.bind] at h ⊢
  rw [e0, e1, e2, e3, e5, e6, e7, e8]
  cases hp : pipe_string_to_list (.sc (inferCell fl.party (naify t.party))) with
  | error e => rw [hp] at h; simp at h
  | ok party =>
    rw [hp] at h
    dsimp only [] at h ⊢
    cases he : pipe_string_to_list (.sc (inferCell fl.election (naify t.election))) with
    | error e => rw [he] at h; simp at h
    | ok elec0 =>
      rw [he] at h
      dsimp only [] at h ⊢
      cases hv : pipe_string_to_list (.sc (inferCell fl.vice_president
          (naify t.vice_president))) with
      | error e => rw [hv] at h; simp at h
      | ok vp =>
        rw [hv] at h
        dsimp only [] at h ⊢
        cases hb : astypeInt64Load (inferCell fl.birth (naify t.birth)) with
        | error e => rw [hb] at h; simp at h
        | ok birth =>
          rw [hb] at h
          dsimp only [] at h ⊢
          cases hd : astypeInt64Load (inferCell fl.death (naify t.death)) with
          | error e => rw [hd] at h; simp at h
          | ok death =>
            rw [hd] at h
            dsimp only [] at h ⊢
            cases hel : electionRestore elec0 with
            | error e => rw [hel] at h; simp at h
            | ok elec =>
              rw [hel] at h
              dsimp only [pure, Except.pure] at h ⊢
              cases h
              rfl

/-- The term_end value of a loaded row is the date cell of its
term_end field under the column flag. -/
theorem loadRow_te_field (fl : ColFlags) (t : Rec9) (out : PyVal × CleanRow)
    (h : loadRow fl t = .ok out) :
    out.2.term_end = loadCellDate (inferCell fl.term_end (naify t.term_end)) := by
  unfold loadRow at h
  dsimp only [bind, Except.bind] at h
  cases hp : pipe_string_to_list (.sc (inferCell fl.party (naify t.party))) with
  | error e => rw [hp] at h; simp at h
  | ok party =>
    rw [hp] at h
    dsimp only [] at h
    cases he : pipe_string_to_list (.sc (inferCell fl.election (naify t.election))) with
    | error e => rw [he] at h; simp at h
    | ok elec0 =>
      rw [he] at h
      dsimp only [] at h
      cases hv : pipe_string_to_list (.sc (inferCell fl.vice_president
          (naify t.vice_president))) with
      | error e => rw [hv] at h; simp at h
      | ok vp =>
        rw [hv] at h
        dsimp only [] at h
        cases hb : astypeInt64Load (inferCell fl.birth (naify t.birth)) with
        | error e => rw [hb] at h; simp at h
        | ok birth =>
          rw [hb] at h
          dsimp only [] at h
          cases hd : astypeInt64Load (inferCell fl.death (naify t.death)) with
          | error e => rw [hd] at h; simp at h
          | ok death =>
            rw [hd] at h
            dsimp only [] at h
            cases hel : electionRestore elec0 with
            | error e => rw [hel] at h; simp at h
            | ok elec =>
              rw [hel] at h
              dsimp only [pure, Except.pure] at h
              cases h
              rfl

/-- A row loads to the same result under two flag vectors that agree on
the eight non-term_end columns and give the same term_end date. -/
theorem loadRow_congr_te (fl fl' : ColFlags) (t : Rec9) (out : PyVal × CleanRow)
    (e0 : fl'.number = fl.number) (e1 : fl'.name = fl.name) (e2 : fl'.birth = fl.birth)
    (e3 : fl'.death = fl.death) (e5 : fl'.term_start = fl.term_start)
    (e6 : fl'.party = fl.party) (e7 : fl'.election = fl.election)
    (e8 : fl'.vice_president = fl.vice_president)
    (hts : loadCellDate (inferCell fl'.term_end (naify t.term_end)) =
      loadCellDate (inferCell fl.term_end (naify t.term_end)))
    (h : loadRow fl t = .ok out) : loadRow fl' t = .ok out := by
  have h2 := loadRow_te fl fl' t t.term_end out e0 e1 e2 e3 e5 e6 e7 e8 h
  have h3 := loadRow_te_field fl t out h
  rw [hts, ← h3] at h2
  exact h2

/-- exMapM over loadRow is stable under such a flag change. -/
theorem exMapM_loadRow_congr_te (fl fl' : ColFlags)
    (e0 : fl'.number = fl.number) (e1 : fl'.name = fl.name) (e2 : fl'.birth = fl.birth)
    (e3 : fl'.death = fl.death) (e5 : fl'.term_start = fl.term_start)
    (e6 : fl'.party = fl.party) (e7 : fl'.election = fl.election)
    (e8 : fl'.vice_president = fl.vice_president) :
    ∀ (ts : List Rec9) (T : CleanDF),
      (∀ t ∈ ts, loadCellDate (inferCell fl'.term_end (naify t.term_end)) =
        loadCellDate (inferCell fl.term_end (naify t.term_end))) →
      exMapM (loadRow fl) ts = .ok T → exMapM (loadRow fl') ts = .ok T := by
  intro ts
  induction ts with
  | nil => intro T _ h; exact h
  | cons t ts ih =>
    intro T hc h
    simp only [exMapM] at h ⊢
    dsimp only [bind, Except.bind] at h ⊢
    cases hfa : loadRow fl t with
    | error e => rw [hfa] at h; simp at h
    | ok out =>
      rw [hfa] at h
      rw [loadRow_congr_te fl fl' t out e0 e1 e2 e3 e5 e6 e7 e8
        (hc t (List.mem_cons_self t ts)) hfa]
      dsimp only [] at h ⊢
      cases hrest : exMapM (loadRow fl) ts with
      | error e => rw [hrest] at h; simp at h
      | ok outs =>
        rw [hrest] at h
        rw [ih outs (fun u hu => hc u (List.mem_cons_of_mem _ hu)) hrest]
        exact h

/-- The load of a record list after a term_end surgery: rows other
than i are unchanged, row i gets the coerced date of the new text. -/
theorem exMapM_loadRow_set_te (fl fl' : ColFlags)
    (e0 : fl'.number = fl.number) (e1 : fl'.name = fl.name) (e2 : fl'.birth = fl.birth)
    (e3 : fl'.death = fl.death) (e5 : fl'.term_start = fl.term_start)
    (e6 : fl'.party = fl.party) (e7 : fl'.election = fl.election)
    (e8 : fl'.vice_president = fl.vice_president) :
    ∀ (tups : List Rec9) (i : Nat) (s : String) (T : CleanDF),
      (∀ t ∈ tups, ∀ u, naify t.term_end = some u → fl.term_end = true →
        pyIntLit u = true) →
      (∀ t ∈ setRec9TE tups i s, ∀ u, naify t.term_end = some u → fl'.term_end = true →
        pyIntLit u = true) →
      exMapM (loadRow fl) tups = .ok T →
      exMapM (loadRow fl') (setRec9TE tups i s) =
        .ok (setTErow T i (to_datetime_coerce (naify s))) := by
  intro tups
  induction tups with
  | nil =>
    intro i s T _ _ h
    cases h
    rfl
  | cons t ts ih =>
    intro i s T hOld hNew h
    simp only [exMapM] at h
    dsimp only [bind, Except.bind] at h
    cases hfa : loadRow fl t with
    | error e => rw [hfa] at h; simp at h
    | ok out =>
      rw [hfa] at h
      dsimp only [] at h
      cases hrest : exMapM (loadRow fl) ts with
      | error e => rw [hrest] at h; simp at h
      | ok outs =>
        rw [hrest] at h
        dsimp only [pure, Except.pure] at h
        cases h
        have hOldT : ∀ u ∈ ts, ∀ v, naify u.term_end = some v → fl.term_end = true →
            pyIntLit v = true :=
          fun u hu => hOld u (List.mem_cons_of_mem _ hu)
        cases i with
        | zero =>
          have hNewHead : ∀ u, naify s = some u → fl'.term_end = true →
              pyIntLit u = true :=
            fun u hu hf => hNew {t with term_end := s} (List.mem_cons_self _ _) u hu hf
          have hNewT : ∀ u ∈ ts, ∀ v, naify u.term_end = some v → fl'.term_end = true →
              pyIntLit v = true :=
            fun u hu => hNew u (List.mem_cons_of_mem _ hu)
          have hd : loadCellDate (inferCell fl'.term_end (naify s)) =
              to_datetime_coerce (naify s) :=
            dateCell_eq (naify s) fl'.term_end hNewHead
          have hcond : ∀ u ∈ ts,
              loadCellDate (inferCell fl'.term_end (naify u.term_end)) =
                loadCellDate (inferCell fl.term_end (naify u.term_end)) := by
            intro u hu
            rw [dateCell_eq _ fl'.term_end (hNewT u hu),
              dateCell_eq _ fl.term_end (hOldT u hu)]
          simp only [setRec9TE, setTErow, exMapM]
          dsimp only [bind, Except.bind]
          rw [loadRow_te fl fl' t s out e0 e1 e2 e3 e5 e6 e7 e8 hfa]
          dsimp only []
          rw [exMapM_loadRow_congr_te fl fl' e0 e1 e2 e3 e5 e6 e7 e8 ts outs hcond hrest]
          dsimp only [pure, Except.pure]
          rw [hd]
        | succ i =>
          have hNewHead : ∀ u, naify t.term_end = some u → fl'.term_end = true →
              pyIntLit u = true :=
            fun u hu hf => hNew t (List.mem_cons_self _ _) u hu hf
          have hNewT : ∀ u ∈ setRec9TE ts i s, ∀ v, naify u.term_end = some v →
              fl'.term_end = true → pyIntLit v = true :=
            fun u hu => hNew u (List.mem_cons_of_mem _ hu)
          have hc : loadCellDate (inferCell fl'.term_end (naify t.term_end)) =
              loadCellDate (inferCell fl.term_end (naify t.term_end)) := by
            rw [dateCell_eq _ fl'.term_end hNewHead,
              dateCell_eq _ fl.term_end (fun u hu hf => hOld t (List.mem_cons_self _ _) u hu hf)]
          simp only [setRec9TE, setTErow, exMapM]
          dsimp only [bind, Except.bind]
          rw [loadRow_congr_te fl fl' t out e0 e1 e2 e3 e5 e6 e7 e8 hc hfa]
          dsimp only []
          rw [ih i s outs hOldT hNewT hrest]
          rfl



-- ## Round-trip support: character list utilities

theorem pyIntLit_chars {s : String} (h : pyIntLit s = true) :
    ∀ c ∈ s.data, (c = '+' || c = '-' || pyIsDigit c) = true := by
  unfold pyIntLit at h
  cases hd : s.data with
  | nil => rw [hd] at h; simp at h
  | cons c0 ds =>
    rw [hd] at h
    dsimp only [] at h
    intro c hc
    by_cases hsign : c0 = '+' || c0 = '-'
    · rw [if_pos hsign] at h
      simp only [Bool.and_eq_true] at h
      rcases List.mem_cons.mp hc with rfl | hcm
      · simp [hsign]
      · simp [List.all_eq_true.mp h.2 c hcm]
    · rw [if_neg hsign] at h
      simp only [Bool.and_eq_true] at h
      rcases List.mem_cons.mp hc with rfl | hcm
      · simp [h.1]
      · simp [List.all_eq_true.mp h.2 c hcm]

theorem intlit_ne_nil {s : String} (h : pyIntLit s = true) : s.data ≠ [] := by
  intro hd
  unfold pyIntLit at h
  rw [hd] at h
  simp at h

theorem comma_not_alpha : pyIsAlpha ',' = false := by decide

theorem naify_some {t u : String} (h : naify t = some u) : u = t ∧ t ∉ naLits := by
  unfold naify at h
  by_cases hc : naLits.contains t
  · rw [if_pos hc] at h
    simp at h
  · rw [if_neg hc] at h
    refine ⟨by injection h with h2; exact h2.symm, ?_⟩
    intro hmem
    exact hc (by rw [List.contains_eq_any_beq]; rw [List.any_eq_true]; exact ⟨t, hmem, by simp⟩)

theorem pyIntLit_false_of_mem {c : Char} (hc : (c = '+' || c = '-' || pyIsDigit c) = false)
    {s : String} (hmem : c ∈ s.data) : pyIntLit s = false := by
  cases h : pyIntLit s with
  | true =>
    have := pyIntLit_chars h c hmem
    rw [hc] at this
    exact absurd this (by simp)
  | false => rfl

theorem colIsInt_false {col : List (Option String)}
    (h : ∀ o ∈ col, ∀ s, o = some s → pyIntLit s = false) : colIsInt col = false := by
  unfold colIsInt
  cases hany : col.any (fun o => o.isSome) with
  | false => rfl
  | true =>
    rw [List.any_eq_true] at hany
    obtain ⟨o, ho, hs⟩ := hany
    cases o with
    | none => simp at hs
    | some s =>
      have hlit := h (some s) ho s rfl
      have hall : col.all (fun o => o.all pyIntLit) = false := by
        cases hc : col.all (fun o => o.all pyIntLit) with
        | false => rfl
        | true =>
          have := List.all_eq_true.mp hc (some s) ho
          simp only [Option.all_some] at this
          rw [hlit] at this
          exact absurd this (by simp)
      rw [hall]
      simp

theorem comma_nonint : ((',' : Char) = '+' || (',' : Char) = '-' || pyIsDigit ',') = false := by
  decide

theorem numLike_parts_false {s : String} (h : numLike s = false) :
    pyIntLit s = false ∧ pyFloatLit s = false ∧ pyBoolLit s = false := by
  unfold numLike at h
  cases h1 : pyIntLit s <;> cases h2 : pyFloatLit s <;> cases h3 : pyBoolLit s <;>
    rw [h1, h2, h3] at h <;> simp_all

theorem mem_dropWhile_of_not {p : Char → Bool} {c : Char} (hc : p c = false) :
    ∀ {l : List Char}, c ∈ l → c ∈ l.dropWhile p := by
  intro l
  induction l with
  | nil => intro h; simp at h
  | cons x xs ih =>
    intro hm
    by_cases hx : p x
    · simp only [List.dropWhile, hx]
      rcases List.mem_cons.mp hm with rfl | hr
      · rw [hx] at hc; exact absurd hc (by simp)
      · exact ih hr
    · rw [dropWhile_eq_self (by simpa using hx)]
      exact hm

theorem mem_stripL_of_not_space {c : Char} (hc : isPySpace c = false) {l : List Char}
    (hm : c ∈ l) : c ∈ stripL l := by
  unfold stripL dropTrailWs
  have h1 : c ∈ l.dropWhile isPySpace := mem_dropWhile_of_not hc hm
  have h2 : c ∈ (l.dropWhile isPySpace).reverse := by simpa using h1
  have h3 := mem_dropWhile_of_not hc h2
  simpa using h3

theorem pyFloatLit_false_of_mem {c : Char} (hsp : isPySpace c = false)
    (hplus : ¬(c = '+')) (hminus : ¬(c = '-'))
    (hfc : floatChar c = false)
    (hinf : c.toLower ∉ ("infinity".data)) (hnan : c.toLower ∉ ("nan".data))
    {s : String} (hm : c ∈ s.data) : pyFloatLit s = false := by
  have hstrip : c ∈ stripL s.data := mem_stripL_of_not_space hsp hm
  unfold pyFloatLit
  dsimp only []
  cases hl : stripL s.data with
  | nil => rw [hl] at hstrip; simp at hstrip
  | cons c0 rest =>
    rw [hl] at hstrip
    dsimp only []
    have hcore : ∀ (l2 : List Char), c ∈ l2 →
        ((!l2.isEmpty && l2.all floatChar && l2.any pyIsDigit) ||
          (decide (lowerL l2 = "inf".data) || decide (lowerL l2 = "infinity".data) ||
            decide (lowerL l2 = "nan".data))) = false := by
      intro l2 hm2
      have hall : l2.all floatChar = false := by
        cases ha : l2.all floatChar with
        | false => rfl
        | true =>
          have := List.all_eq_true.mp ha c hm2
          rw [hfc] at this
          exact absurd this (by simp)
      have hlow : c.toLower ∈ lowerL l2 := List.mem_map_of_mem Char.toLower hm2
      have hne1 : ¬(lowerL l2 = "inf".data) := by
        intro he
        rw [he] at hlow
        have hsub : ∀ x ∈ ("inf".data), x ∈ ("infinity".data) := by decide
        exact hinf (hsub _ hlow)
      have hne2 : ¬(lowerL l2 = "infinity".data) := by
        intro he
        rw [he] at hlow
        exact hinf hlow
      have hne3 : ¬(lowerL l2 = "nan".data) := by
        intro he
        rw [he] at hlow
        exact hnan hlow
      simp [hall, hne1, hne2, hne3]
    by_cases hsign : (decide (c0 = '+') || decide (c0 = '-')) = true
    · rw [if_pos hsign]
      have hcrest : c ∈ rest := by
        rcases List.mem_cons.mp hstrip with rfl | hr
        · simp only [Bool.or_eq_true, decide_eq_true_eq] at hsign
          rcases hsign with rfl | rfl
          · exact absurd rfl hplus
          · exact absurd rfl hminus
        · exact hr
      exact hcore rest hcrest
    · rw [if_neg hsign]
      exact hcore (c0 :: rest) hstrip

theorem pyBoolLit_false_of_mem {c : Char}
    (h1 : c ∉ ("True".data)) (h2 : c ∉ ("TRUE".data)) (h3 : c ∉ ("true".data))
    (h4 : c ∉ ("False".data)) (h5 : c ∉ ("FALSE".data)) (h6 : c ∉ ("false".data))
    {s : String} (hm : c ∈ s.data) : pyBoolLit s = false := by
  cases hb : pyBoolLit s with
  | false => rfl
  | true =>
    exfalso
    unfold pyBoolLit at hb
    simp only [Bool.or_eq_true, decide_eq_true_eq] at hb
    rcases hb with ((((rfl | rfl) | rfl) | rfl) | rfl) | rfl
    · exact h1 hm
    · exact h2 hm
    · exact h3 hm
    · exact h4 hm
    · exact h5 hm
    · exact h6 hm

theorem numLike_false_of_comma {s : String} (hm : ',' ∈ s.data) : numLike s = false := by
  unfold numLike
  rw [pyIntLit_false_of_mem comma_nonint hm,
    pyFloatLit_false_of_mem (by decide) (by decide) (by decide) (by decide)
      (by decide) (by decide) hm,
    pyBoolLit_false_of_mem (by decide) (by decide) (by decide) (by decide)
      (by decide) (by decide) hm]
  rfl

theorem mem_of_dropWhile {p : Char → Bool} {l : List Char} {x : Char}
    (h : x ∈ l.dropWhile p) : x ∈ l :=
  (List.dropWhile_sublist p).subset h

theorem mem_of_stripL {l : List Char} {x : Char} (h : x ∈ stripL l) : x ∈ l := by
  unfold stripL dropTrailWs at h
  rw [List.mem_reverse] at h
  have h2 := mem_of_dropWhile h
  rw [List.mem_reverse] at h2
  exact mem_of_dropWhile h2

theorem dateShape_has_comma {s : String} (h : dateShape s = true) : ',' ∈ s.data := by
  unfold dateShape at h
  dsimp only [] at h
  cases hml : monthFromName ((stripL s.data).takeWhile pyIsAlpha) with
  | none => rw [hml] at h; simp at h
  | some m =>
    rw [hml] at h
    dsimp only [] at h
    by_cases hlen : ((stripL s.data).dropWhile pyIsAlpha).length =
        (((stripL s.data).dropWhile pyIsAlpha).dropWhile isPySpace).length
    · rw [if_pos hlen] at h; simp at h
    · rw [if_neg hlen] at h
      simp only [Bool.and_eq_true] at h
      have h2 := h.2
      cases hr : ((((stripL s.data).dropWhile pyIsAlpha).dropWhile
          isPySpace).dropWhile pyIsDigit).dropWhile isPySpace with
      | nil => rw [hr] at h2; simp at h2
      | cons c r4 =>
        rw [hr] at h2
        dsimp only [] at h2
        simp only [Bool.and_eq_true, decide_eq_true_eq] at h2
        have hc : c ∈ ((((stripL s.data).dropWhile pyIsAlpha).dropWhile
            isPySpace).dropWhile pyIsDigit).dropWhile isPySpace := by
          rw [hr]; simp
        have := mem_of_stripL (mem_of_dropWhile (mem_of_dropWhile
          (mem_of_dropWhile (mem_of_dropWhile hc))))
        rw [h2.1] at this
        exact this

theorem dateShape_nonnum {s : String} (h : dateShape s = true) :
    pyIntLit s = false ∧ pyFloatLit s = false ∧ pyBoolLit s = false :=
  numLike_parts_false (numLike_false_of_comma (dateShape_has_comma h))

theorem boolCol_false_of {col : List (Option String)}
    (h : ∀ o ∈ col, ∀ u, o = some u → pyBoolLit u = false) : boolCol col = false := by
  unfold boolCol
  cases hany : col.any (fun o => o.isSome) with
  | false => rfl
  | true =>
    rw [List.any_eq_true] at hany
    obtain ⟨o, ho, hs⟩ := hany
    cases o with
    | none => simp at hs
    | some u =>
      have hlit := h (some u) ho u rfl
      have hall : col.all (fun o => o.all pyBoolLit) = false := by
        cases hc : col.all (fun o => o.all pyBoolLit) with
        | false => rfl
        | true =>
          have := List.all_eq_true.mp hc (some u) ho
          simp only [Option.all_some] at this
          rw [hlit] at this
          exact absurd this (by simp)
      rw [hall]
      simp

theorem numCol_false_of {col : List (Option String)}
    (h : ∀ o ∈ col, ∀ u, o = some u → (pyIntLit u || pyFloatLit u) = false) :
    numCol col = false := by
  unfold numCol
  cases hany : col.any (fun o => o.isSome) with
  | false => rfl
  | true =>
    rw [List.any_eq_true] at hany
    obtain ⟨o, ho, hs⟩ := hany
    cases o with
    | none => simp at hs
    | some u =>
      have hlit := h (some u) ho u rfl
      have hall : col.all (fun o => o.all (fun u => pyIntLit u || pyFloatLit u)) = false := by
        cases hc : col.all (fun o => o.all (fun u => pyIntLit u || pyFloatLit u)) with
        | false => rfl
        | true =>
          have := List.all_eq_true.mp hc (some u) ho
          simp only [Option.all_some] at this
          rw [hlit] at this
          exact absurd this (by simp)
      rw [hall]
      simp

theorem dateColOK_of {col : List (Option String)}
    (h : ∀ o ∈ col, ∀ u, o = some u → dateShape u = true) : dateColOK col = true := by
  unfold dateColOK
  rw [List.all_eq_true]
  intro o ho
  cases o with
  | none => rfl
  | some u => simpa using h (some u) ho u rfl

theorem dateColOK_mem {col : List (Option String)} (h : dateColOK col = true) :
    ∀ o ∈ col, ∀ u, o = some u → dateShape u = true := by
  intro o ho u hu
  have := List.all_eq_true.mp h o ho
  rw [hu] at this
  simpa using this

theorem dateColGood_intro {col : List (Option String)}
    (h : ∀ o ∈ col, ∀ u, o = some u → dateShape u = true) : dateColGood col = true := by
  unfold dateColGood
  rw [boolCol_false_of (fun o ho u hu => (dateShape_nonnum (h o ho u hu)).2.2),
    numCol_false_of (fun o ho u hu => by
      have hn := dateShape_nonnum (h o ho u hu)
      rw [hn.1, hn.2.1]
      rfl),
    dateColOK_of h]
  rfl

theorem dateColGood_parts {col : List (Option String)} (h : dateColGood col = true) :
    boolCol col = false ∧ numCol col = false ∧ dateColOK col = true := by
  unfold dateColGood at h
  simp only [Bool.and_eq_true, Bool.not_eq_true'] at h
  exact ⟨h.1.1, h.1.2, h.2⟩

theorem guardOK_parts {tups : List Rec9} (h : guardOK tups = true) :
    dateColGood (tups.map (fun t => naify t.term_start)) = true ∧
    dateColGood (tups.map (fun t => naify t.term_end)) = true ∧
    objColOK (tups.map (fun t => naify t.number)) = true ∧
    objColOK (tups.map (fun t => naify t.name)) = true ∧
    intColOK (tups.map (fun t => naify t.birth)) = true ∧
    intColOK (tups.map (fun t => naify t.death)) = true ∧
    objColOK (tups.map (fun t => naify t.party)) = true ∧
    objColOK (tups.map (fun t => naify t.election)) = true ∧
    objColOK (tups.map (fun t => naify t.vice_president)) = true := by
  unfold guardOK at h
  simp only [Bool.and_eq_true] at h
  exact ⟨h.1.1.1.1.1.1.1.1, h.1.1.1.1.1.1.1.2, h.1.1.1.1.1.1.2, h.1.1.1.1.1.2,
    h.1.1.1.1.2, h.1.1.1.2, h.1.1.2, h.1.2, h.2⟩

theorem guardOK_intro {tups : List Rec9}
    (h1 : dateColGood (tups.map (fun t => naify t.term_start)) = true)
    (h2 : dateColGood (tups.map (fun t => naify t.term_end)) = true)
    (h3 : objColOK (tups.map (fun t => naify t.number)) = true)
    (h4 : objColOK (tups.map (fun t => naify t.name)) = true)
    (h5 : intColOK (tups.map (fun t => naify t.birth)) = true)
    (h6 : intColOK (tups.map (fun t => naify t.death)) = true)
    (h7 : objColOK (tups.map (fun t => naify t.party)) = true)
    (h8 : objColOK (tups.map (fun t => naify t.election)) = true)
    (h9 : objColOK (tups.map (fun t => naify t.vice_president)) = true) :
    guardOK tups = true := by
  unfold guardOK
  rw [h1, h2, h3, h4, h5, h6, h7, h8, h9]
  rfl

theorem loadGuard_none_iff (tups : List Rec9) :
    loadGuard tups = none ↔ guardOK tups = true := by
  unfold loadGuard
  constructor
  · intro h
    by_cases hb : (boolCol (tups.map (fun t => naify t.term_start)) ||
        boolCol (tups.map (fun t => naify t.term_end))) = true
    · rw [if_pos hb] at h
      simp at h
    · rw [if_neg hb] at h
      by_cases hg : guardOK tups = true
      · exact hg
      · rw [if_pos (by simp [Bool.not_eq_true] at hg; simp [hg])] at h
        simp at h
  · intro hg
    have hts := (dateColGood_parts (guardOK_parts hg).1).1
    have hte := (dateColGood_parts (guardOK_parts hg).2.1).1
    rw [if_neg (by rw [hts, hte]; simp)]
    rw [if_neg (by rw [hg]; simp)]

theorem loadFromRecords_ok_parts {recs : List (List String)} {T : CleanDF}
    (h : loadFromRecords recs = .ok T) :
    ∃ rows tups, recs = csvHeader :: rows ∧ exMapM toRec9 rows = .ok tups ∧
      guardOK tups = true ∧ exMapM (loadRow (colFlags tups)) tups = .ok T := by
  cases recs with
  | nil => simp [loadFromRecords] at h
  | cons header rows =>
    unfold loadFromRecords at h
    dsimp only [bind, Except.bind] at h
    by_cases hh : header = csvHeader
    · rw [if_pos hh] at h
      cases htup : exMapM toRec9 rows with
      | error e => rw [htup] at h; simp at h
      | ok tups =>
        rw [htup] at h
        dsimp only [] at h
        cases hg : loadGuard tups with
        | some e => rw [hg] at h; simp at h
        | none =>
          rw [hg] at h
          dsimp only [] at h
          exact ⟨rows, tups, by rw [hh], htup, (loadGuard_none_iff tups).mp hg, h⟩
    · rw [if_neg hh] at h
      simp at h

theorem colIsInt_false_of_dates {col : List (Option String)}
    (h : dateColOK col = true) : colIsInt col = false :=
  colIsInt_false (fun o ho u hu => (dateShape_nonnum (dateColOK_mem h o ho u hu)).1)

theorem guardOK_setRec9 {tups : List Rec9} (hg : guardOK tups = true) (i : Nat) (s : String)
    (hs : naify s = none ∨ dateShape s = true) : guardOK (setRec9 tups i s) = true := by
  obtain ⟨g1, g2, g3, g4, g5, g6, g7, g8, g9⟩ := guardOK_parts hg
  apply guardOK_intro
  · rw [setRec9_ts_col tups i s]
    apply dateColGood_intro
    intro o ho u hu
    rcases List.mem_or_eq_of_mem_set ho with hold | rfl
    · exact dateColOK_mem (dateColGood_parts g1).2.2 o hold u hu
    · rcases hs with hna | hds
      · rw [hna] at hu; simp at hu
      · obtain ⟨rfl, _⟩ := naify_some hu
        exact hds
  · rw [setRec9_proj (fun t => naify t.term_end) (fun t v => rfl) tups i s]
    exact g2
  · rw [setRec9_proj (fun t => naify t.number) (fun t v => rfl) tups i s]
    exact g3
  · rw [setRec9_proj (fun t => naify t.name) (fun t v => rfl) tups i s]
    exact g4
  · rw [setRec9_proj (fun t => naify t.birth) (fun t v => rfl) tups i s]
    exact g5
  · rw [setRec9_proj (fun t => naify t.death) (fun t v => rfl) tups i s]
    exact g6
  · rw [setRec9_proj (fun t => naify t.party) (fun t v => rfl) tups i s]
    exact g7
  · rw [setRec9_proj (fun t => naify t.election) (fun t v => rfl) tups i s]
    exact g8
  · rw [setRec9_proj (fun t => naify t.vice_president) (fun t v => rfl) tups i s]
    exact g9

theorem guardOK_setRec9TE {tups : List Rec9} (hg : guardOK tups = true) (i : Nat)
    (s : String) (hs : naify s = none ∨ dateShape s = true) :
    guardOK (setRec9TE tups i s) = true := by
  obtain ⟨g1, g2, g3, g4, g5, g6, g7, g8, g9⟩ := guardOK_parts hg
  apply guardOK_intro
  · rw [setRec9TE_proj (fun t => naify t.term_start) (fun t v => rfl) tups i s]
    exact g1
  · rw [setRec9TE_te_col tups i s]
    apply dateColGood_intro
    intro o ho u hu
    rcases List.mem_or_eq_of_mem_set ho with hold | rfl
    · exact dateColOK_mem (dateColGood_parts g2).2.2 o hold u hu
    · rcases hs with hna | hds
      · rw [hna] at hu; simp at hu
      · obtain ⟨rfl, _⟩ := naify_some hu
        exact hds
  · rw [setRec9TE_proj (fun t => naify t.number) (fun t v => rfl) tups i s]
    exact g3
  · rw [setRec9TE_proj (fun t => naify t.name) (fun t v => rfl) tups i s]
    exact g4
  · rw [setRec9TE_proj (fun t => naify t.birth) (fun t v => rfl) tups i s]
    exact g5
  · rw [setRec9TE_proj (fun t => naify t.death) (fun t v => rfl) tups i s]
    exact g6
  · rw [setRec9TE_proj (fun t => naify t.party) (fun t v => rfl) tups i s]
    exact g7
  · rw [setRec9TE_proj (fun t => naify t.election) (fun t v => rfl) tups i s]
    exact g8
  · rw [setRec9TE_proj (fun t => naify t.vice_president) (fun t v => rfl) tups i s]
    exact g9

/-- Replacing one term_start text field of a loadable record set with an
NA token or month-name-format text keeps the load succeeding; the output
differs only in that row's term_start, which becomes the coerced parse
of the new text. -/
theorem loadFromRecords_setTS (recs : List (List String)) (i : Nat) (s : String)
    (T : CleanDF) (hs : naify s = none ∨ dateShape s = true)
    (h : loadFromRecords recs = .ok T) :
    loadFromRecords (setTS recs i s) =
      .ok (setTSrow T i (to_datetime_coerce (naify s))) := by
  obtain ⟨rows, tups, hrec, htup, hg, hload⟩ := loadFromRecords_ok_parts h
  subst hrec
  show loadFromRecords (csvHeader :: setField4 rows i s) = _
  unfold loadFromRecords
  dsimp only [bind, Except.bind]
  rw [if_pos rfl]
  rw [exMapM_toRec9_set rows i s tups htup]
  dsimp only []
  have hg2 := guardOK_setRec9 hg i s hs
  rw [(loadGuard_none_iff _).mpr hg2]
  dsimp only []
  have hn0 : (colFlags (setRec9 tups i s)).number = (colFlags tups).number :=
    congrArg colIsInt (setRec9_proj (fun t => naify t.number) (fun t v => rfl) tups i s)
  have hn1 : (colFlags (setRec9 tups i s)).name = (colFlags tups).name :=
    congrArg colIsInt (setRec9_proj (fun t => naify t.name) (fun t v => rfl) tups i s)
  have hn2 : (colFlags (setRec9 tups i s)).birth = (colFlags tups).birth :=
    congrArg colIsInt (setRec9_proj (fun t => naify t.birth) (fun t v => rfl) tups i s)
  have hn3 : (colFlags (setRec9 tups i s)).death = (colFlags tups).death :=
    congrArg colIsInt (setRec9_proj (fun t => naify t.death) (fun t v => rfl) tups i s)
  have hn5 : (colFlags (setRec9 tups i s)).term_end = (colFlags tups).term_end :=
    congrArg colIsInt (setRec9_proj (fun t => naify t.term_end) (fun t v => rfl) tups i s)
  have hn6 : (colFlags (setRec9 tups i s)).party = (colFlags tups).party :=
    congrArg colIsInt (setRec9_proj (fun t => naify t.party) (fun t v => rfl) tups i s)
  have hn7 : (colFlags (setRec9 tups i s)).election = (colFlags tups).election :=
    congrArg colIsInt (setRec9_proj (fun t => naify t.election) (fun t v => rfl) tups i s)
  have hn8 : (colFlags (setRec9 tups i s)).vice_president =
      (colFlags tups).vice_president :=
    congrArg colIsInt
      (setRec9_proj (fun t => naify t.vice_president) (fun t v => rfl) tups i s)
  have hts_old : (colFlags tups).term_start = false :=
    colIsInt_false_of_dates (dateColGood_parts (guardOK_parts hg).1).2.2
  have hts_new : (colFlags (setRec9 tups i s)).term_start = false :=
    colIsInt_false_of_dates (dateColGood_parts (guardOK_parts hg2).1).2.2
  have hOld : ∀ t ∈ tups, ∀ u, naify t.term_start = some u →
      (colFlags tups).term_start = true → pyIntLit u = true := by
    intro t ht u hu hf
    rw [hts_old] at hf
    exact absurd hf (by simp)
  have hNew : ∀ t ∈ setRec9 tups i s, ∀ u, naify t.term_start = some u →
      (colFlags (setRec9 tups i s)).term_start = true → pyIntLit u = true := by
    intro t ht u hu hf
    rw [hts_new] at hf
    exact absurd hf (by simp)
  exact exMapM_loadRow_set (colFlags tups) (colFlags (setRec9 tups i s))
    hn0 hn1 hn2 hn3 hn5 hn6 hn7 hn8 tups i s T hOld hNew hload

/-- The same for a term_end field. -/
theorem loadFromRecords_setTE (recs : List (List String)) (i : Nat) (s : String)
    (T : CleanDF) (hs : naify s = none ∨ dateShape s = true)
    (h : loadFromRecords recs = .ok T) :
    loadFromRecords (setTE recs i s) =
      .ok (setTErow T i (to_datetime_coerce (naify s))) := by
  obtain ⟨rows, tups, hrec, htup, hg, hload⟩ := loadFromRecords_ok_parts h
  subst hrec
  show loadFromRecords (csvHeader :: setField5 rows i s) = _
  unfold loadFromRecords
  dsimp only [bind, Except.bind]
  rw [if_pos rfl]
  rw [exMapM_toRec9_setTE rows i s tups htup]
  dsimp only []
  have hg2 := guardOK_setRec9TE hg i s hs
  rw [(loadGuard_none_iff _).mpr hg2]
  dsimp only []
  have hn0 : (colFlags (setRec9TE tups i s)).number = (colFlags tups).number :=
    congrArg colIsInt (setRec9TE_proj (fun t => naify t.number) (fun t v => rfl) tups i s)
  have hn1 : (colFlags (setRec9TE tups i s)).name = (colFlags tups).name :=
    congrArg colIsInt (setRec9TE_proj (fun t => naify t.name) (fun t v => rfl) tups i s)
  have hn2 : (colFlags (setRec9TE tups i s)).birth = (colFlags tups).birth :=
    congrArg colIsInt (setRec9TE_proj (fun t => naify t.birth) (fun t v => rfl) tups i s)
  have hn3 : (colFlags (setRec9TE tups i s)).death = (colFlags tups).death :=
    congrArg colIsInt (setRec9TE_proj (fun t => naify t.death) (fun t v => rfl) tups i s)
  have hn5 : (colFlags (setRec9TE tups i s)).term_start = (colFlags tups).term_start :=
    congrArg colIsInt
      (setRec9TE_proj (fun t => naify t.term_start) (fun t v => rfl) tups i s)
  have hn6 : (colFlags (setRec9TE tups i s)).party = (colFlags tups).party :=
    congrArg colIsInt (setRec9TE_proj (fun t => naify t.party) (fun t v => rfl) tups i s)
  have hn7 : (colFlags (setRec9TE tups i s)).election = (colFlags tups).election :=
    congrArg colIsInt (setRec9TE_proj (fun t => naify t.election) (fun t v => rfl) tups i s)
  have hn8 : (colFlags (setRec9TE tups i s)).vice_president =
      (colFlags tups).vice_president :=
    congrArg colIsInt
      (setRec9TE_proj (fun t => naify t.vice_president) (fun t v => rfl) tups i s)
  have hte_old : (colFlags tups).term_end = false :=
    colIsInt_false_of_dates (dateColGood_parts (guardOK_parts hg).2.1).2.2
  have hte_new : (colFlags (setRec9TE tups i s)).term_end = false :=
    colIsInt_false_of_dates (dateColGood_parts (guardOK_parts hg2).2.1).2.2
  have hOld : ∀ t ∈ tups, ∀ u, naify t.term_end = some u →
      (colFlags tups).term_end = true → pyIntLit u = true := by
    intro t ht u hu hf
    rw [hte_old] at hf
    exact absurd hf (by simp)
  have hNew : ∀ t ∈ setRec9TE tups i s, ∀ u, naify t.term_end = some u →
      (colFlags (setRec9TE tups i s)).term_end = true → pyIntLit u = true := by
    intro t ht u hu hf
    rw [hte_new] at hf
    exact absurd hf (by simp)
  exact exMapM_loadRow_set_te (colFlags tups) (colFlags (setRec9TE tups i s))
    hn0 hn1 hn2 hn3 hn5 hn6 hn7 hn8 tups i s T hOld hNew hload

/-- C9 counterexample: "True" is date text that no calendar date parse
accepts, yet writing it as the sole term_start value does not coerce to
null — read_csv types the column bool and pd.to_datetime raises even
with errors equal coerce, aborting the whole load. -/
theorem date_text_bool_aborts :
    parseDate "True" = none ∧
    loadFromRecords recsBool =
      .error "TypeError: dtype bool cannot be converted to datetime64[ns]" :=
  ⟨by rfl, by rfl⟩

/-- C9 (amended): in clean_presidents_df the term dates go through a
coercing to_datetime, so cleaning succeeds on every frame whose name and
term columns hold strings, regardless of whether the dates parse, and
unparseable or missing date text coerces to null.  In load_csv
(loadFromRecords of the parsed file) the same holds for date text that
keeps the column an object column of the written month-name family: an
NA token or month-name-format text may replace any row's term_start or
term_end field, the load still succeeds, and only that cell changes, to
the coerced parse of the new text (null when the text denotes no valid
in-range date).  Date text read_csv types as bool aborts the load, and
numeric date text becomes epoch timestamps; both lie outside this
guarantee. -/
theorem date_coercion_behavior :
    (∀ raw_df : List RawRow,
        (∀ r ∈ raw_df, r.c2.isStr = true ∧ r.c3.isStr = true) →
        ∃ T, clean_presidents_df raw_df = .ok (T, raw_df) ∧
          T.length = raw_df.length) ∧
    (∀ file, load_csv file = loadFromRecords (csvParse file)) ∧
    to_datetime_coerce (some "January 45, 1801") = none ∧
    to_datetime_coerce none = none ∧
    (∀ (recs : List (List String)) (i : Nat) (s : String) (T : CleanDF),
        naify s = none ∨ dateShape s = true →
        loadFromRecords recs = .ok T →
        loadFromRecords (setTS recs i s) =
          .ok (setTSrow T i (to_datetime_coerce (naify s)))) ∧
    (∀ (recs : List (List String)) (i : Nat) (s : String) (T : CleanDF),
        naify s = none ∨ dateShape s = true →
        loadFromRecords recs = .ok T →
        loadFromRecords (setTE recs i s) =
          .ok (setTErow T i (to_datetime_coerce (naify s)))) := by
  refine ⟨?_, fun _ => rfl, by rfl, rfl,
    fun recs i s T hs h => loadFromRecords_setTS recs i s T hs h,
    fun recs i s T hs h => loadFromRecords_setTE recs i s T hs h⟩
  intro raw_df hstr
  obtain ⟨ys, hys, hlen⟩ := exMapM_ok_of_forall
    (fun r hr => cleanRow_ok r (hstr r hr).1 (hstr r hr).2)
  refine ⟨ys, ?_, hlen⟩
  unfold clean_presidents_df dfCopyRaw
  dsimp only [bind, Except.bind]
  rw [hys]
  rfl

/-- Witness for the amended C9 at concrete inputs: a one-row raw frame
cleans, and replacing either date field of a one-row saved file with
invalid month-name text loads with only that cell coerced to null. -/
theorem date_coercion_behavior_witness :
    (∀ r ∈ [rawWashington], r.c2.isStr = true ∧ r.c3.isStr = true) ∧
    (∃ T, clean_presidents_df [rawWashington] = .ok (T, [rawWashington]) ∧
      T.length = [rawWashington].length) ∧
    (naify "January 45, 1801" = none ∨ dateShape "January 45, 1801" = true) ∧
    loadFromRecords recsTiny = .ok dfTiny ∧
    loadFromRecords (setTS recsTiny 0 "January 45, 1801") =
      .ok (setTSrow dfTiny 0 (to_datetime_coerce (naify "January 45, 1801"))) ∧
    loadFromRecords (setTE recsTiny 0 "January 45, 1801") =
      .ok (setTErow dfTiny 0 (to_datetime_coerce (naify "January 45, 1801"))) :=
  ⟨by decide,
   date_coercion_behavior.1 [rawWashington] (by decide),
   Or.inr (by decide),
   by rfl,
   date_coercion_behavior.2.2.2.2.1 recsTiny 0 "January 45, 1801" dfTiny
     (Or.inr (by decide)) (by rfl),
   date_coercion_behavior.2.2.2.2.2 recsTiny 0 "January 45, 1801" dfTiny
     (Or.inr (by decide)) (by rfl)⟩
